import Mathlib

/-!
Verification development for the geospatial sensor-placement and routing
library.  The Python source is shallowly embedded over exact rational
arithmetic: float arithmetic becomes `ℚ`, the transcendental functions of
numpy (`pi`, `cos`, `sin`, `sqrt`, `arcsin`) become fields of an abstract
environment `TrigEnv`, the shapely point-in-polygon test becomes an
even-odd ray-crossing test with an explicit boundary check (shapely's
`contains` is interior containment: points on the boundary are not
contained), and the external pulp/CBC solver becomes an oracle field of
`RouteEnv` returning a status together with a variable assignment.
-/

namespace GeoOpt

/-- A geographic point, as shapely's `Point`: `(x, y)` is `(lon, lat)` in degrees. -/
abbrev GeoPoint := ℚ × ℚ

/-- A polygon shell (shapely closes the ring implicitly). -/
abbrev Polygon := List GeoPoint

/-- A `MultiPolygon`: a list of disjoint simple polygon shells (no holes). -/
abbrev MultiPolygon := List Polygon

/-- Abstract interpretation of numpy's transcendental functions; the source
computes with floats, the embedding leaves `pi`, `cos`, `sin`, `sqrt` and
`arcsin` abstract. -/
structure TrigEnv where
  pi : ℚ
  cos : ℚ → ℚ
  sin : ℚ → ℚ
  sqrt : ℚ → ℚ
  arcsin : ℚ → ℚ

/-- `np.radians`: degrees to radians via the environment's `pi`. -/
def radians (env : TrigEnv) (x : ℚ) : ℚ := x * env.pi / 180

/-- Whether `p` lies on the closed segment from `a` to `b` (exact rational test). -/
def onSegment (a b p : GeoPoint) : Bool :=
  decide ((b.1 - a.1) * (p.2 - a.2) = (b.2 - a.2) * (p.1 - a.1)
    ∧ min a.1 b.1 ≤ p.1 ∧ p.1 ≤ max a.1 b.1
    ∧ min a.2 b.2 ≤ p.2 ∧ p.2 ≤ max a.2 b.2)

/-- The edges of a polygon ring, including the implicit closing edge. -/
def ringEdges : Polygon → List (GeoPoint × GeoPoint)
  | [] => []
  | p :: rest => (p :: rest).zip (rest ++ [p])

/-- Whether `p` lies on the boundary of the polygon shell. -/
def pointOnBoundary (poly : Polygon) (p : GeoPoint) : Bool :=
  (ringEdges poly).any (fun e => onSegment e.1 e.2 p)

/-- One step of the even-odd rule: whether the horizontal ray from `p`
crosses the edge `e`. -/
def crossesRay (p : GeoPoint) (e : GeoPoint × GeoPoint) : Bool :=
  (decide (p.2 < e.1.2) != decide (p.2 < e.2.2)) &&
    decide (p.1 < e.1.1 + (p.2 - e.1.2) * (e.2.1 - e.1.1) / (e.2.2 - e.1.2))

/-- Even-odd (ray crossing) parity over the polygon's edges. -/
def evenOddInside (poly : Polygon) (p : GeoPoint) : Bool :=
  (ringEdges poly).foldl (fun acc e => if crossesRay p e then !acc else acc) false

/-- Model of shapely `polygon.contains(point)` for a simple polygon: true
exactly when the point lies in the interior; points on the boundary are NOT
contained. -/
def polyContains (poly : Polygon) (p : GeoPoint) : Bool :=
  !(pointOnBoundary poly p) && evenOddInside poly p

/-- Model of shapely `MultiPolygon.contains(point)`: interior of some
component (components are disjoint). -/
def regionContains (region : MultiPolygon) (p : GeoPoint) : Bool :=
  region.any (fun poly => polyContains poly p)

/-- Modelled from the spec (refinement comparison for the grid generator):
the BOUNDARY-INCLUSIVE containment test the spec describes, under which a
point lying exactly on the region's boundary counts as inside. -/
def boundaryInclusiveContains (region : MultiPolygon) (p : GeoPoint) : Bool :=
  region.any (fun poly => polyContains poly p || pointOnBoundary poly p)

/-- `np.linspace a b num` with both endpoints included. -/
def linspace (a b : ℚ) (num : ℕ) : List ℚ :=
  if num = 0 then []
  else if num = 1 then [a]
  else (List.range num).map (fun k : ℕ => a + (k : ℚ) * ((b - a) / ((num : ℚ) - 1)))

/-- `create_fan_polygon` from `helpers.py`: apex followed by 20 arc points. -/
def create_fan_polygon (env : TrigEnv) (center_lon center_lat range_km
    orientation_deg fan_angle_deg : ℚ) : Polygon :=
  let range_deg := (range_km / 6371) * (180 / env.pi)
  let angles := linspace (orientation_deg - fan_angle_deg / 2)
    (orientation_deg + fan_angle_deg / 2) 20
  let arc_points := angles.map (fun angle =>
    (center_lon + range_deg * env.sin (radians env angle) / env.cos (radians env center_lat),
     center_lat + range_deg * env.cos (radians env angle)))
  (center_lon, center_lat) :: arc_points

/-- Bounding box, as shapely `bounds`: `(minx, miny, maxx, maxy)`. -/
structure Bounds where
  minLon : ℚ
  minLat : ℚ
  maxLon : ℚ
  maxLat : ℚ

/-- One accumulation step of the bounding box fold. -/
def boundsStep (b : Bounds) (pt : GeoPoint) : Bounds :=
  ⟨min b.minLon pt.1, min b.minLat pt.2, max b.maxLon pt.1, max b.maxLat pt.2⟩

/-- Bounds of a multipolygon (fold of min/max over all shell vertices). -/
def boundsOf (region : MultiPolygon) : Bounds :=
  match region.flatMap id with
  | [] => ⟨0, 0, 0, 0⟩
  | q :: rest => rest.foldl boundsStep ⟨q.1, q.2, q.1, q.2⟩

/-- Number of iterations of the source loop
`cur := lo; while cur ≤ hi: ...; cur := cur + step` (exact arithmetic).
The source loop never terminates when `step ≤ 0 ∧ lo ≤ hi`; the model
returns `0` iterations in that degenerate case. -/
def stepCount (lo hi step : ℚ) : ℕ :=
  if 0 < step ∧ lo ≤ hi then (⌊(hi - lo) / step⌋).toNat + 1 else 0

/-- The longitude step of one grid row, with the polar fallback of the source. -/
def rowLonStep (env : TrigEnv) (b : Bounds) (resolution_km lat : ℚ) : ℚ :=
  let deg_lon_dist_km := (env.pi / 180) * 6371 * env.cos (radians env lat)
  if 0 < deg_lon_dist_km then resolution_km / deg_lon_dist_km else b.maxLon - b.minLon + 1

/-- The lattice points of one grid row (before the containment filter). -/
def rowLatticePoints (env : TrigEnv) (b : Bounds) (resolution_km lat : ℚ) : List GeoPoint :=
  let lon_step := rowLonStep env b resolution_km lat
  (List.range (stepCount b.minLon b.maxLon lon_step)).map
    (fun k : ℕ => (b.minLon + (k : ℚ) * lon_step, lat))

/-- The latitude of each grid row. -/
def latticeLats (env : TrigEnv) (b : Bounds) (resolution_km : ℚ) : List ℚ :=
  let lat_step := (resolution_km / 6371) * (180 / env.pi)
  (List.range (stepCount b.minLat b.maxLat lat_step)).map
    (fun k : ℕ => b.minLat + (k : ℚ) * lat_step)

/-- All lattice points the source loops consider (row-major), before the
containment test. -/
def latticePoints (env : TrigEnv) (region : MultiPolygon) (resolution_km : ℚ) : List GeoPoint :=
  let b := boundsOf region
  (latticeLats env b resolution_km).flatMap (fun lat => rowLatticePoints env b resolution_km lat)

/-- `get_grid_points_in_polygon_km` from `helpers.py`: the source appends a
considered lattice point exactly when `polygon.contains(point)` holds, which
is the same list as filtering the considered lattice points. -/
def get_grid_points_in_polygon_km (env : TrigEnv) (region : MultiPolygon)
    (resolution_km : ℚ) : List GeoPoint :=
  (latticePoints env region resolution_km).filter (fun p => regionContains region p)

/-- A sensor configuration dictionary. -/
structure SensorConfig where
  range_km : ℚ
  azimuth_degree : ℚ
  fan_degree : ℚ
deriving DecidableEq

/-- A `{location, config}` dictionary (scan position / placed sensor). -/
structure ScanPosition where
  location : GeoPoint
  config : SensorConfig
deriving DecidableEq

/-- The fan polygon of a sensor at `loc` with configuration `cfg`. -/
def fanOf (env : TrigEnv) (loc : GeoPoint) (cfg : SensorConfig) : Polygon :=
  create_fan_polygon env loc.1 loc.2 cfg.range_km cfg.azimuth_degree cfg.fan_degree

/-- The source's per-iteration cover set
`{i for i in uncovered if poly.contains(coverage_points[i])}` of candidate `idx`. -/
def coverSet (polys : List Polygon) (pts : List GeoPoint) (idx : ℕ)
    (uncovered : Finset ℕ) : Finset ℕ :=
  uncovered.filter (fun i => polyContains (polys.getD idx []) (pts.getD i (0, 0)) = true)

/-- One comparison step of the candidate scan: keep the strictly larger
cover set (hence the FIRST index attaining the maximum wins ties). -/
def bcStep (polys : List Polygon) (pts : List GeoPoint) (uncovered : Finset ℕ)
    (best : Option ℕ × Finset ℕ) (idx : ℕ) : Option ℕ × Finset ℕ :=
  let cs := coverSet polys pts idx uncovered
  if best.2.card < cs.card then (some idx, cs) else best

/-- The source's scan over candidates keeping the first strictly larger
cover set: returns the chosen index (if any) and its cover set. -/
def bestCandidate (polys : List Polygon) (pts : List GeoPoint)
    (uncovered : Finset ℕ) : Option ℕ × Finset ℕ :=
  (List.range polys.length).foldl (bcStep polys pts uncovered) (none, ∅)

/-- Invariant of the candidate scan: the running cover set is a subset of
the uncovered set, a `none` index means the empty set, and a chosen index
records exactly its cover set. -/
def BCInv (polys : List Polygon) (pts : List GeoPoint) (uncovered : Finset ℕ)
    (st : Option ℕ × Finset ℕ) : Prop :=
  st.2 ⊆ uncovered ∧ (st.1 = none → st.2 = ∅) ∧
    ∀ i, st.1 = some i → coverSet polys pts i uncovered = st.2

/-- The greedy set-cover loop of `select_scan_positions`, returning the
chosen candidate indices in order together with the final uncovered set.
Its termination measure (the size of the uncovered set, which strictly
shrinks every iteration) is the reason the source loop terminates. -/
def greedyLoop (polys : List Polygon) (pts : List GeoPoint)
    (coverage_requirement : ℚ) (uncovered : Finset ℕ) : List ℕ × Finset ℕ :=
  if h : uncovered.Nonempty ∧
      1 - coverage_requirement < (uncovered.card : ℚ) / (pts.length : ℚ) then
    let best := bestCandidate polys pts uncovered
    if hc : best.2 = ∅ then ([], uncovered)
    else
      match best.1 with
      | none => ([], uncovered)
      | some idx =>
        let rest := greedyLoop polys pts coverage_requirement (uncovered \ best.2)
        (idx :: rest.1, rest.2)
  else ([], uncovered)
termination_by uncovered.card
decreasing_by
  have hsub : (bestCandidate polys pts uncovered).2 ⊆ uncovered := by
    have haux : ∀ (l : List ℕ) (st : Option ℕ × Finset ℕ), st.2 ⊆ uncovered →
        (l.foldl (bcStep polys pts uncovered) st).2 ⊆ uncovered := by
      intro l
      induction l with
      | nil => intro st hst; exact hst
      | cons a t ih =>
        intro st hst
        simp only [List.foldl_cons]
        apply ih
        unfold bcStep
        by_cases hlt : st.2.card < (coverSet polys pts a uncovered).card
        · simp only [hlt, if_true]
          exact Finset.filter_subset _ _
        · simp only [hlt, if_false]
          exact hst
    exact haux _ _ (by simp)
  exact Finset.card_lt_card (Finset.sdiff_ssubset hsub (Finset.nonempty_iff_ne_empty.mpr hc))

/-- The greedy result of `select_scan_positions`: candidate indices chosen,
and the final uncovered set of sample indices. -/
def greedyResult (env : TrigEnv) (operational_area : MultiPolygon)
    (sensor_config : SensorConfig) (resolution_km coverage_requirement : ℚ) :
    List ℕ × Finset ℕ :=
  let locations := get_grid_points_in_polygon_km env operational_area resolution_km
  let candidate_polys := locations.map (fun loc => fanOf env loc sensor_config)
  greedyLoop candidate_polys locations coverage_requirement (Finset.range locations.length)

/-- `select_scan_positions` from `mobile_optimization.py`: the source appends
`{location: locations[best_idx], config: sensor_config}` as it selects; the
model maps the chosen indices to the same dictionaries. -/
def select_scan_positions (env : TrigEnv) (operational_area : MultiPolygon)
    (sensor_config : SensorConfig) (resolution_km coverage_requirement : ℚ) :
    List ScanPosition :=
  (greedyResult env operational_area sensor_config resolution_km coverage_requirement).1.map
    (fun idx =>
      ⟨(get_grid_points_in_polygon_km env operational_area resolution_km).getD idx (0, 0),
       sensor_config⟩)

/-- `_haversine_dist` from `mobile_optimization.py`. -/
def haversine_dist (env : TrigEnv) (pt1 pt2 : GeoPoint) : ℚ :=
  let lat1 := radians env pt1.2
  let lat2 := radians env pt2.2
  let d_lat := lat2 - lat1
  let d_lon := radians env (pt2.1 - pt1.1)
  let a := env.sin (d_lat / 2) ^ 2 + env.cos lat1 * env.cos lat2 * env.sin (d_lon / 2) ^ 2
  6371 * (2 * env.arcsin (env.sqrt a))

/-- Helper for `np.argmin`: fold tracking the first index of the minimum. -/
def argminAux : ℕ → ℕ → ℚ → List ℚ → ℕ
  | _, best_idx, _, [] => best_idx
  | i, best_idx, best_val, v :: rest =>
    if v < best_val then argminAux (i + 1) i v rest
    else argminAux (i + 1) best_idx best_val rest

/-- `np.argmin`: index of the first minimum of a list (0 on the empty list,
where numpy raises instead; `plan_sensor_routes` guards that case). -/
def argminIdx : List ℚ → ℕ
  | [] => 0
  | v :: rest => argminAux 1 0 v rest

/-- Outcome labels of the external pulp/CBC solver. -/
inductive SolverStatus where
  | optimal
  | notSolved
  | infeasible
  | unbounded
  | undefinedStatus
deriving DecidableEq

/-- The per-depot TSP model handed to the solver. -/
structure TSPInstance where
  n : ℕ
  arcs : List (ℕ × ℕ)
  dist : ℕ × ℕ → ℚ

/-- What the solver reports back: a status and the variable values. -/
structure TSPResult where
  status : SolverStatus
  x : ℕ × ℕ → ℚ
  u : ℕ → ℚ

/-- Environment of `plan_sensor_routes`: numpy trig, shapely's
`operational_area.contains(LineString [p, q])` test, and the pulp solver
oracle. -/
structure RouteEnv where
  trig : TrigEnv
  segmentInRegion : MultiPolygon → GeoPoint → GeoPoint → Bool
  solve : TSPInstance → TSPResult

/-- One step of nearest-depot clustering: append the scan point to the
cluster of its `np.argmin` depot. -/
def clusterStep (env : TrigEnv) (depots : List GeoPoint)
    (cls : List (List ScanPosition)) (sp : ScanPosition) : List (List ScanPosition) :=
  let idx := argminIdx (depots.map (fun d => haversine_dist env sp.location d))
  cls.set idx (cls.getD idx [] ++ [sp])

/-- Nearest-depot clustering of `plan_sensor_routes`. -/
def clustersOf (env : TrigEnv) (scan_points : List ScanPosition)
    (depots : List GeoPoint) : List (List ScanPosition) :=
  scan_points.foldl (clusterStep env depots) (List.replicate depots.length [])

/-- The node list of one depot's TSP: depot first, then its assigned points. -/
def tspPoints (depot : GeoPoint) (assigned : List ScanPosition) : List GeoPoint :=
  depot :: assigned.map (fun s => s.location)

/-- The allowed arcs: all ordered pairs of distinct node indices whose
segment lies inside the operational area. -/
def tspArcs (renv : RouteEnv) (area : MultiPolygon) (pts : List GeoPoint) : List (ℕ × ℕ) :=
  (List.range pts.length).flatMap (fun i =>
    ((List.range pts.length).filter (fun j =>
      decide (i ≠ j) && renv.segmentInRegion area (pts.getD i (0, 0)) (pts.getD j (0, 0)))).map
      (fun j => (i, j)))

/-- The TSP instance `plan_sensor_routes` formulates for one depot. -/
def depotInstance (renv : RouteEnv) (area : MultiPolygon) (depot : GeoPoint)
    (assigned : List ScanPosition) : TSPInstance :=
  let pts := tspPoints depot assigned
  ⟨pts.length, tspArcs renv area pts,
    fun a => haversine_dist renv.trig (pts.getD a.1 (0, 0)) (pts.getD a.2 (0, 0))⟩

/-- The successor dictionary `{i: j for i, j in arcs if value(x[i,j]) == 1}`;
python dict comprehension keeps the last binding, hence `getLast?`. -/
def succOf (arcs : List (ℕ × ℕ)) (x : ℕ × ℕ → ℚ) (i : ℕ) : Option ℕ :=
  ((arcs.filter (fun a => decide (a.1 = i) && decide (x a = 1))).getLast?).map (fun a => a.2)

/-- Failure modes of the route planner (the source raises in each case). -/
inductive RouteFailure where
  | notConverged
  | missingArc
  | extractionStuck
  | noDepot
deriving DecidableEq

/-- The tour-extraction walk of `plan_sensor_routes`: follow successors from
the current node, emitting visited points, until the depot (node 0) is
reached.  The source uses an unbounded `while True`; the model carries fuel
and fails when it runs out, which under a feasible solution never happens. -/
def tourWalk (pts : List GeoPoint) (depot : GeoPoint) (succ : ℕ → Option ℕ) :
    ℕ → ℕ → Except RouteFailure (List GeoPoint)
  | 0, _ => .error .extractionStuck
  | fuel + 1, current =>
    match succ current with
    | none => .error .missingArc
    | some nxt =>
      if nxt = 0 then .ok [depot]
      else
        match tourWalk pts depot succ fuel nxt with
        | .ok rest => .ok (pts.getD nxt depot :: rest)
        | .error e => .error e

/-- The body of `plan_sensor_routes` for one depot: trivial two-element
route for an empty cluster, otherwise formulate, solve, demand an optimal
status and extract the tour. -/
def solveDepotRoute (renv : RouteEnv) (area : MultiPolygon) (depot : GeoPoint)
    (assigned : List ScanPosition) : Except RouteFailure (List GeoPoint) :=
  let pts := tspPoints depot assigned
  if pts.length = 1 then .ok [depot, depot]
  else
    let inst := depotInstance renv area depot assigned
    let result := renv.solve inst
    if result.status = SolverStatus.optimal then
      match tourWalk pts depot (succOf inst.arcs result.x) pts.length 0 with
      | .ok rest => .ok (depot :: rest)
      | .error e => .error e
    else .error .notConverged

/-- The per-depot loop of `plan_sensor_routes` (errors abort the whole call,
as the source's exceptions do). -/
def planRoutesAux (renv : RouteEnv) (area : MultiPolygon) :
    List (GeoPoint × List ScanPosition) → Except RouteFailure (List (List GeoPoint))
  | [] => .ok []
  | (depot, assigned) :: rest =>
    match solveDepotRoute renv area depot assigned with
    | .error e => .error e
    | .ok route =>
      match planRoutesAux renv area rest with
      | .ok routes => .ok (route :: routes)
      | .error e => .error e

/-- `plan_sensor_routes` from `mobile_optimization.py`. -/
def plan_sensor_routes (renv : RouteEnv) (scan_points : List ScanPosition)
    (depots : List GeoPoint) (operational_area : MultiPolygon) :
    Except RouteFailure (List (List GeoPoint)) :=
  if scan_points ≠ [] ∧ depots = [] then .error .noDepot
  else planRoutesAux renv operational_area
    (depots.zip (clustersOf renv.trig scan_points depots))

/-- Sum of the solver variable `x` over a list of arcs. -/
def arcSum (arcs : List (ℕ × ℕ)) (x : ℕ × ℕ → ℚ) : ℚ := (arcs.map x).sum

/-- Feasibility of a solver result for the per-depot TSP model: exactly the
constraint families and variable bounds the source states to pulp.  When
the solver reports `optimal`, pulp guarantees the returned values satisfy
this predicate. -/
def TSPFeasible (inst : TSPInstance) (res : TSPResult) : Prop :=
  (∀ a ∈ inst.arcs, res.x a = 0 ∨ res.x a = 1) ∧
  (∀ k, 1 ≤ k → k < inst.n →
    arcSum (inst.arcs.filter (fun a => decide (a.2 = k))) res.x = 1 ∧
    arcSum (inst.arcs.filter (fun a => decide (a.1 = k))) res.x = 1) ∧
  arcSum (inst.arcs.filter (fun a => decide (a.1 = 0))) res.x = 1 ∧
  arcSum (inst.arcs.filter (fun a => decide (a.2 = 0))) res.x = 1 ∧
  (∀ i, 1 ≤ i → i < inst.n →
    1 ≤ res.u i ∧ res.u i ≤ (inst.n : ℚ) - 1 ∧ (res.u i).den = 1) ∧
  (∀ i j, 1 ≤ i → i < inst.n → 1 ≤ j → j < inst.n → i ≠ j → (i, j) ∈ inst.arcs →
    res.u i - res.u j + ((inst.n : ℚ) - 1) * res.x (i, j) ≤ (inst.n : ℚ) - 2)

/-- The data of the integer program `optimize_sensor_placement` formulates. -/
structure PlacementModel where
  num_locations : ℕ
  num_configs : ℕ
  covers : ℕ → ℕ → ℕ → ℚ
  max_sensors : ℕ
  coverage_requirement : ℚ
  encourage_overlapping : ℚ

/-- Values of the decision variables `Place`, `IsCovered`, `CoveredCount`. -/
structure PlacementAssignment where
  x : ℕ → ℕ → ℚ
  y : ℕ → ℚ
  y_prime : ℕ → ℚ

/-- Sum of `f` over `0, ..., n-1`. -/
def rangeSum (n : ℕ) (f : ℕ → ℚ) : ℚ := ((List.range n).map f).sum

/-- The coverage expression `Σ covers[i,l,j]·x[l][j]` for sample `i`. -/
def coverageOf (m : PlacementModel) (a : PlacementAssignment) (i : ℕ) : ℚ :=
  rangeSum m.num_locations (fun l => rangeSum m.num_configs (fun j => m.covers i l j * a.x l j))

/-- The total number of placed sensors `Σ x[l][j]`. -/
def placeTotal (m : PlacementModel) (a : PlacementAssignment) : ℚ :=
  rangeSum m.num_locations (fun l => rangeSum m.num_configs (fun j => a.x l j))

/-- Feasibility of an assignment for the integer program of
`optimize_sensor_placement`: exactly the variable categories/bounds and the
constraint families the source states to pulp.  Note `CoveredCount`
(`y_prime`) is declared `Integer` with no bounds, so integrality is its
only variable-level condition. -/
def PlacementFeasible (m : PlacementModel) (a : PlacementAssignment) : Prop :=
  (∀ l, l < m.num_locations → ∀ j, j < m.num_configs → a.x l j = 0 ∨ a.x l j = 1) ∧
  (∀ i, i < m.num_locations → a.y i = 0 ∨ a.y i = 1) ∧
  (∀ i, i < m.num_locations → (a.y_prime i).den = 1) ∧
  m.encourage_overlapping * rangeSum m.num_locations a.y ≤ rangeSum m.num_locations a.y_prime ∧
  (∀ i, i < m.num_locations → a.y_prime i ≤ 2) ∧
  (∀ i, i < m.num_locations → m.encourage_overlapping * a.y_prime i ≤ coverageOf m a i) ∧
  placeTotal m a ≤ (m.max_sensors : ℚ) ∧
  m.coverage_requirement * (m.num_locations : ℚ) ≤ rangeSum m.num_locations a.y ∧
  (∀ i, i < m.num_locations → a.y i ≤ coverageOf m a i) ∧
  (∀ l, l < m.num_locations → rangeSum m.num_configs (a.x l) ≤ 1)

instance (m : PlacementModel) (a : PlacementAssignment) : Decidable (PlacementFeasible m a) := by
  unfold PlacementFeasible
  infer_instance

/-- The integer program `optimize_sensor_placement` builds from its inputs:
grid sampling, the boolean coverage matrix from fan containment, and the
scalar knobs. -/
def optimize_sensor_placement_model (env : TrigEnv) (operational_area : MultiPolygon)
    (configurations : List SensorConfig) (resolution_km : ℚ) (max_sensors : ℕ)
    (coverage_requirement encourage_overlapping : ℚ) : PlacementModel :=
  let locations := get_grid_points_in_polygon_km env operational_area resolution_km
  { num_locations := locations.length
    num_configs := configurations.length
    covers := fun i l j =>
      if polyContains (fanOf env (locations.getD l (0, 0)) (configurations.getD j ⟨0, 0, 0⟩))
          (locations.getD i (0, 0)) then 1 else 0
    max_sensors := max_sensors
    coverage_requirement := coverage_requirement
    encourage_overlapping := encourage_overlapping }

/-- Abstract interpretation of the shapely geometry operations used by
`calculate_coverage_info` on an opaque geometry type `G`: `unary_union`,
python truthiness of a geometry (false for `None` and for empty
geometries), intersection with the region, and area. -/
structure GeometryOps (G : Type) where
  unary_union : List Polygon → G
  truthy : G → Bool
  intersection : MultiPolygon → G → G
  area : G → ℚ
  region_area : MultiPolygon → ℚ

/-- The result dictionary of `calculate_coverage_info`. -/
structure CoverageInfo where
  num_sensors : ℕ
  estimated_coverage_percent : ℚ
  actual_coverage_percent : ℚ
deriving DecidableEq

/-- The source's `unary_union(placed_polygons) if placed_polygons else None`:
the union operation is invoked only when the list is nonempty. -/
def coverageTotalGeom {G : Type} (ops : GeometryOps G) (placed_polygons : List Polygon) :
    Option G :=
  if placed_polygons.isEmpty then none else some (ops.unary_union placed_polygons)

/-- `calculate_coverage_info` from `optimization.py`. -/
def calculate_coverage_info {G : Type} (env : TrigEnv) (ops : GeometryOps G)
    (operational_area : MultiPolygon) (placed_sensors : List ScanPosition)
    (resolution_km : ℚ) : CoverageInfo :=
  let locations := get_grid_points_in_polygon_km env operational_area resolution_km
  let placed_polygons := placed_sensors.map (fun s => fanOf env s.location s.config)
  let covered_count := (locations.filter
    (fun pt => placed_polygons.any (fun poly => polyContains poly pt))).length
  let estimated := if locations.isEmpty then 0 else (covered_count : ℚ) / (locations.length : ℚ)
  let area_percent :=
    match coverageTotalGeom ops placed_polygons with
    | none => 0
    | some g =>
      if ops.truthy g then
        ops.area (ops.intersection operational_area g) / ops.region_area operational_area
      else 0
  ⟨placed_sensors.length, estimated, area_percent⟩

/-- Iteration of a successor map from a start node. -/
def iterF (σ : ℕ → ℕ) (start : ℕ) : ℕ → ℕ
  | 0 => start
  | k + 1 => σ (iterF σ start k)

/-- The combinatorial content of a feasible solution of the per-depot TSP
model: the active-arc successor map `σ` is a self-map of the `n` nodes,
injective (in-degree constraints), moves the depot (no self-loop at 0), and
the MTZ potentials `u` strictly increase along every active arc between
non-depot nodes while staying within the variable bounds `[1, n-1]`. -/
structure CycleHyp (n : ℕ) (σ : ℕ → ℕ) (u : ℕ → ℚ) : Prop where
  two_le : 2 ≤ n
  maps_lt : ∀ i, i < n → σ i < n
  inj : ∀ i j, i < n → j < n → σ i = σ j → i = j
  zero_moves : σ 0 ≠ 0
  increase : ∀ i, 1 ≤ i → i < n → 1 ≤ σ i → u i + 1 ≤ u (σ i)
  lower : ∀ i, 1 ≤ i → i < n → 1 ≤ u i
  upper : ∀ i, 1 ≤ i → i < n → u i ≤ (n : ℚ) - 1

/-- A concrete trig environment used to evaluate the embedding on closed
inputs: `pi := 180` makes both grid steps exactly `1` at the resolution
`6371`, so the candidate grid is the integer lattice. -/
def testTrigEnv : TrigEnv := ⟨180, fun _ => 1, fun _ => 0, fun _ => 0, fun _ => 0⟩

/-- A concrete unit square region: every lattice point (at resolution 6371
under `testTrigEnv`) lies on its boundary. -/
def unitSquareRegion : MultiPolygon := [[(0, 0), (1, 0), (1, 1), (0, 1)]]

/-- A concrete 3-by-3 square region with four interior lattice points. -/
def threeSquareRegion : MultiPolygon := [[(0, 0), (3, 0), (3, 3), (0, 3)]]

/-- An assignment with a negative overlap count at sample 0, compensated in
the aggregate constraint by sample 1. -/
def negativeOverlapAssignment : PlacementAssignment :=
  ⟨fun _ _ => 0, fun _ => 0, fun i => if i = 0 then -1 else if i = 1 then 2 else 0⟩

/-- The all-zero assignment. -/
def zeroPlacementAssignment : PlacementAssignment :=
  ⟨fun _ _ => 0, fun _ => 0, fun _ => 0⟩

/-- A route environment whose solver never reports an optimal solution. -/
def stubRouteEnv : RouteEnv :=
  ⟨testTrigEnv, fun _ _ _ => true, fun _ => ⟨SolverStatus.notSolved, fun _ => 0, fun _ => 0⟩⟩

-- ## Proof development

theorem bcFold_inv (polys : List Polygon) (pts : List GeoPoint) (uncovered : Finset ℕ)
    (l : List ℕ) (st : Option ℕ × Finset ℕ) (hst : BCInv polys pts uncovered st) :
    BCInv polys pts uncovered (l.foldl (bcStep polys pts uncovered) st) := by
  induction l generalizing st with
  | nil => exact hst
  | cons a t ih =>
    simp only [List.foldl_cons]
    apply ih
    unfold bcStep
    by_cases hlt : st.2.card < (coverSet polys pts a uncovered).card
    · simp only [hlt, if_true]
      exact And.intro (Finset.filter_subset _ _)
        (And.intro (fun h => nomatch h) (fun i hi => by cases hi; rfl))
    · simp only [hlt, if_false]
      exact hst

theorem bcFold_card_mono (polys : List Polygon) (pts : List GeoPoint) (uncovered : Finset ℕ)
    (l : List ℕ) (st : Option ℕ × Finset ℕ) :
    st.2.card ≤ (l.foldl (bcStep polys pts uncovered) st).2.card := by
  induction l generalizing st with
  | nil => exact le_refl _
  | cons a t ih =>
    simp only [List.foldl_cons]
    refine le_trans ?_ (ih (bcStep polys pts uncovered st a))
    unfold bcStep
    by_cases hlt : st.2.card < (coverSet polys pts a uncovered).card
    · simp only [hlt, if_true]
      exact le_of_lt hlt
    · simp only [hlt, if_false]
      exact le_refl _

theorem bcFold_all_le (polys : List Polygon) (pts : List GeoPoint) (uncovered : Finset ℕ)
    (l : List ℕ) (st : Option ℕ × Finset ℕ) :
    ∀ idx ∈ l, (coverSet polys pts idx uncovered).card ≤
      (l.foldl (bcStep polys pts uncovered) st).2.card := by
  induction l generalizing st with
  | nil => intro idx h; cases h
  | cons a t ih =>
    intro idx hmem
    simp only [List.foldl_cons]
    rcases List.mem_cons.mp hmem with h | h
    · subst h
      refine le_trans ?_ (bcFold_card_mono polys pts uncovered t _)
      unfold bcStep
      by_cases hlt : st.2.card < (coverSet polys pts idx uncovered).card
      · simp only [hlt, if_true]
        exact le_refl _
      · simp only [hlt, if_false]
        exact le_of_not_lt hlt
    · exact ih _ idx h

theorem bcFold_idx_mem (polys : List Polygon) (pts : List GeoPoint) (uncovered : Finset ℕ)
    (l : List ℕ) (st : Option ℕ × Finset ℕ) :
    ∀ i, (l.foldl (bcStep polys pts uncovered) st).1 = some i → st.1 = some i ∨ i ∈ l := by
  induction l generalizing st with
  | nil => intro i h; exact Or.inl h
  | cons a t ih =>
    intro i h
    simp only [List.foldl_cons] at h
    rcases ih _ i h with h2 | h2
    · unfold bcStep at h2
      by_cases hlt : st.2.card < (coverSet polys pts a uncovered).card
      · simp only [hlt, if_true] at h2
        cases h2
        exact Or.inr (List.mem_cons_self _ _)
      · simp only [hlt, if_false] at h2
        exact Or.inl h2
    · exact Or.inr (List.mem_cons_of_mem _ h2)

theorem bestCandidate_inv (polys : List Polygon) (pts : List GeoPoint)
    (uncovered : Finset ℕ) : BCInv polys pts uncovered (bestCandidate polys pts uncovered) :=
  bcFold_inv polys pts uncovered _ _ ⟨by simp, fun _ => rfl, by intro i h; cases h⟩

theorem bestCandidate_snd_subset (polys : List Polygon) (pts : List GeoPoint)
    (uncovered : Finset ℕ) : (bestCandidate polys pts uncovered).2 ⊆ uncovered :=
  (bestCandidate_inv polys pts uncovered).1

theorem bestCandidate_empty_all (polys : List Polygon) (pts : List GeoPoint)
    (uncovered : Finset ℕ) (h : (bestCandidate polys pts uncovered).2 = ∅) :
    ∀ idx, idx < polys.length → coverSet polys pts idx uncovered = ∅ := by
  intro idx hidx
  apply Finset.card_eq_zero.mp
  have hle := bcFold_all_le polys pts uncovered (List.range polys.length) (none, ∅) idx
    (List.mem_range.mpr hidx)
  unfold bestCandidate at h
  rw [h, Finset.card_empty] at hle
  exact Nat.le_zero.mp hle

theorem bestCandidate_some_spec (polys : List Polygon) (pts : List GeoPoint)
    (uncovered : Finset ℕ) (h : (bestCandidate polys pts uncovered).2 ≠ ∅) :
    ∃ i, (bestCandidate polys pts uncovered).1 = some i ∧ i < polys.length ∧
      coverSet polys pts i uncovered = (bestCandidate polys pts uncovered).2 := by
  obtain ⟨hsub, hnone, hsome⟩ := bestCandidate_inv polys pts uncovered
  cases hb : (bestCandidate polys pts uncovered).1 with
  | none => exact absurd (hnone hb) h
  | some i =>
    refine ⟨i, rfl, ?_, hsome i hb⟩
    rcases bcFold_idx_mem polys pts uncovered (List.range polys.length) (none, ∅) i hb with
      h2 | h2
    · cases h2
    · exact List.mem_range.mp h2

theorem coverSet_empty (polys : List Polygon) (pts : List GeoPoint) (idx : ℕ) :
    coverSet polys pts idx ∅ = ∅ :=
  Finset.filter_empty _

theorem coverSet_sdiff (polys : List Polygon) (pts : List GeoPoint) (idx : ℕ)
    (U S : Finset ℕ) : coverSet polys pts idx (U \ S) = coverSet polys pts idx U \ S := by
  unfold coverSet
  ext i
  simp only [Finset.mem_filter, Finset.mem_sdiff]
  tauto

theorem coverSet_mono (polys : List Polygon) (pts : List GeoPoint) (idx : ℕ)
    {U V : Finset ℕ} (h : U ⊆ V) : coverSet polys pts idx U ⊆ coverSet polys pts idx V :=
  Finset.filter_subset_filter _ h

theorem greedyLoop_stop_eq (polys : List Polygon) (pts : List GeoPoint) (c : ℚ)
    (U : Finset ℕ)
    (h : ¬(U.Nonempty ∧ 1 - c < (U.card : ℚ) / (pts.length : ℚ))) :
    greedyLoop polys pts c U = ([], U) := by
  rw [greedyLoop]
  exact dif_neg h

theorem greedyLoop_break_eq (polys : List Polygon) (pts : List GeoPoint) (c : ℚ)
    (U : Finset ℕ)
    (h : U.Nonempty ∧ 1 - c < (U.card : ℚ) / (pts.length : ℚ))
    (hc : (bestCandidate polys pts U).2 = ∅) :
    greedyLoop polys pts c U = ([], U) := by
  rw [greedyLoop, dif_pos h]
  exact dif_pos hc

theorem greedyLoop_cons_eq (polys : List Polygon) (pts : List GeoPoint) (c : ℚ)
    (U : Finset ℕ)
    (h : U.Nonempty ∧ 1 - c < (U.card : ℚ) / (pts.length : ℚ))
    (hc : (bestCandidate polys pts U).2 ≠ ∅) (idx : ℕ)
    (hidx : (bestCandidate polys pts U).1 = some idx) :
    greedyLoop polys pts c U =
      (idx :: (greedyLoop polys pts c (U \ (bestCandidate polys pts U).2)).1,
       (greedyLoop polys pts c (U \ (bestCandidate polys pts U).2)).2) := by
  rw [greedyLoop, dif_pos h, dif_neg hc, hidx]

/-- At exit of the greedy loop, either the uncovered fraction has dropped to
`1 - coverage_requirement` or below, or no candidate covers any remaining
uncovered sample. -/
theorem greedyLoop_stop_spec (polys : List Polygon) (pts : List GeoPoint) (c : ℚ)
    (uncovered : Finset ℕ) :
    (((greedyLoop polys pts c uncovered).2.card : ℚ) / (pts.length : ℚ) ≤ 1 - c) ∨
    (∀ idx, idx < polys.length →
      coverSet polys pts idx (greedyLoop polys pts c uncovered).2 = ∅) := by
  have H : ∀ n (U : Finset ℕ), U.card = n →
      (((greedyLoop polys pts c U).2.card : ℚ) / (pts.length : ℚ) ≤ 1 - c) ∨
      (∀ idx, idx < polys.length →
        coverSet polys pts idx (greedyLoop polys pts c U).2 = ∅) := by
    intro n
    induction n using Nat.strong_induction_on with
    | _ n ih =>
      intro U hU
      by_cases hcond : U.Nonempty ∧ 1 - c < (U.card : ℚ) / (pts.length : ℚ)
      · by_cases hce : (bestCandidate polys pts U).2 = ∅
        · rw [greedyLoop_break_eq polys pts c U hcond hce]
          exact Or.inr (bestCandidate_empty_all polys pts U hce)
        · obtain ⟨i, hi1, hi2, hi3⟩ := bestCandidate_some_spec polys pts U hce
          rw [greedyLoop_cons_eq polys pts c U hcond hce i hi1]
          have hlt : (U \ (bestCandidate polys pts U).2).card < n := by
            rw [← hU]
            exact Finset.card_lt_card (Finset.sdiff_ssubset
              (bestCandidate_snd_subset polys pts U)
              (Finset.nonempty_iff_ne_empty.mpr hce))
          exact ih _ hlt _ rfl
      · rw [greedyLoop_stop_eq polys pts c U hcond]
        rcases not_and_or.mp hcond with hne | hfrac
        · right
          intro i _
          rw [Finset.not_nonempty_iff_eq_empty.mp hne]
          exact coverSet_empty polys pts i
        · exact Or.inl (le_of_not_lt hfrac)
  exact H uncovered.card uncovered rfl

/-- Lowering the coverage requirement can only stop the greedy loop earlier:
the selected index list is never longer. -/
theorem greedyLoop_len_mono (polys : List Polygon) (pts : List GeoPoint)
    (c1 c2 : ℚ) (hc : c1 ≤ c2) (uncovered : Finset ℕ) :
    (greedyLoop polys pts c1 uncovered).1.length ≤
      (greedyLoop polys pts c2 uncovered).1.length := by
  have H : ∀ n (U : Finset ℕ), U.card = n →
      (greedyLoop polys pts c1 U).1.length ≤ (greedyLoop polys pts c2 U).1.length := by
    intro n
    induction n using Nat.strong_induction_on with
    | _ n ih =>
      intro U hU
      by_cases hcond : U.Nonempty ∧ 1 - c1 < (U.card : ℚ) / (pts.length : ℚ)
      · have hcond2 : U.Nonempty ∧ 1 - c2 < (U.card : ℚ) / (pts.length : ℚ) :=
          ⟨hcond.1, lt_of_le_of_lt (by linarith) hcond.2⟩
        by_cases hce : (bestCandidate polys pts U).2 = ∅
        · rw [greedyLoop_break_eq polys pts c1 U hcond hce]
          exact Nat.zero_le _
        · obtain ⟨i, hi1, hi2, hi3⟩ := bestCandidate_some_spec polys pts U hce
          rw [greedyLoop_cons_eq polys pts c1 U hcond hce i hi1,
            greedyLoop_cons_eq polys pts c2 U hcond2 hce i hi1]
          have hlt : (U \ (bestCandidate polys pts U).2).card < n := by
            rw [← hU]
            exact Finset.card_lt_card (Finset.sdiff_ssubset
              (bestCandidate_snd_subset polys pts U)
              (Finset.nonempty_iff_ne_empty.mpr hce))
          simpa using ih _ hlt _ rfl
      · rw [greedyLoop_stop_eq polys pts c1 U hcond]
        exact Nat.zero_le _
  exact H uncovered.card uncovered rfl

/-- The greedy loop selects valid candidate indices, selects an index only
when it still covers something, and never selects an index twice. -/
theorem greedyLoop_sel_spec (polys : List Polygon) (pts : List GeoPoint) (c : ℚ)
    (uncovered : Finset ℕ) :
    (greedyLoop polys pts c uncovered).1.Nodup ∧
    ∀ idx ∈ (greedyLoop polys pts c uncovered).1,
      idx < polys.length ∧ (coverSet polys pts idx uncovered).Nonempty := by
  have H : ∀ n (U : Finset ℕ), U.card = n →
      (greedyLoop polys pts c U).1.Nodup ∧
      ∀ idx ∈ (greedyLoop polys pts c U).1,
        idx < polys.length ∧ (coverSet polys pts idx U).Nonempty := by
    intro n
    induction n using Nat.strong_induction_on with
    | _ n ih =>
      intro U hU
      by_cases hcond : U.Nonempty ∧ 1 - c < (U.card : ℚ) / (pts.length : ℚ)
      · by_cases hce : (bestCandidate polys pts U).2 = ∅
        · rw [greedyLoop_break_eq polys pts c U hcond hce]
          exact ⟨List.nodup_nil, by intro idx h; cases h⟩
        · obtain ⟨i, hi1, hi2, hi3⟩ := bestCandidate_some_spec polys pts U hce
          rw [greedyLoop_cons_eq polys pts c U hcond hce i hi1]
          have hlt : (U \ (bestCandidate polys pts U).2).card < n := by
            rw [← hU]
            exact Finset.card_lt_card (Finset.sdiff_ssubset
              (bestCandidate_snd_subset polys pts U)
              (Finset.nonempty_iff_ne_empty.mpr hce))
          obtain ⟨hnodup, hmem⟩ := ih _ hlt _ rfl
          have hselfempty : coverSet polys pts i (U \ (bestCandidate polys pts U).2) = ∅ := by
            rw [coverSet_sdiff, hi3]
            exact Finset.sdiff_self _
          constructor
          · refine List.nodup_cons.mpr ⟨?_, hnodup⟩
            intro hmem2
            have hne := (hmem i hmem2).2
            rw [hselfempty] at hne
            exact Finset.not_nonempty_empty hne
          · intro j hj
            rcases List.mem_cons.mp hj with hj | hj
            · subst hj
              refine ⟨hi2, ?_⟩
              rw [hi3]
              exact Finset.nonempty_iff_ne_empty.mpr hce
            · obtain ⟨hlt2, hne⟩ := hmem j hj
              exact ⟨hlt2, hne.mono (coverSet_mono polys pts j Finset.sdiff_subset)⟩
      · rw [greedyLoop_stop_eq polys pts c U hcond]
        exact ⟨List.nodup_nil, by intro idx h; cases h⟩
  exact H uncovered.card uncovered rfl

theorem foldl_preserve {α β : Type} (P : β → Prop) (f : β → α → β)
    (hf : ∀ b a, P b → P (f b a)) :
    ∀ (l : List α) (b : β), P b → P (l.foldl f b) := by
  intro l
  induction l with
  | nil => intro b hb; exact hb
  | cons a t ih => intro b hb; exact ih (f b a) (hf b a hb)

theorem boundsOf_le (region : MultiPolygon) :
    (boundsOf region).minLon ≤ (boundsOf region).maxLon ∧
    (boundsOf region).minLat ≤ (boundsOf region).maxLat := by
  unfold boundsOf
  cases region.flatMap id with
  | nil => exact ⟨le_refl _, le_refl _⟩
  | cons q rest =>
    exact foldl_preserve (fun b : Bounds => b.minLon ≤ b.maxLon ∧ b.minLat ≤ b.maxLat)
      boundsStep
      (fun b pt hb =>
        ⟨le_trans (min_le_left _ _) (le_trans hb.1 (le_max_left _ _)),
         le_trans (min_le_left _ _) (le_trans hb.2 (le_max_left _ _))⟩)
      rest ⟨q.1, q.2, q.1, q.2⟩ ⟨le_refl _, le_refl _⟩

theorem rowLonStep_pos (env : TrigEnv) (b : Bounds) (resolution_km lat : ℚ)
    (hres : 0 < resolution_km) (hb : b.minLon ≤ b.maxLon) :
    0 < rowLonStep env b resolution_km lat := by
  unfold rowLonStep
  dsimp only
  split
  · rename_i hpos
    exact div_pos hres hpos
  · linarith

theorem rowLatticePoints_nodup (env : TrigEnv) (b : Bounds) (resolution_km lat : ℚ)
    (hs : 0 < rowLonStep env b resolution_km lat) :
    (rowLatticePoints env b resolution_km lat).Nodup := by
  unfold rowLatticePoints
  dsimp only
  apply List.Nodup.map_on _ (List.nodup_range _)
  intro x _ y _ hxy
  have h1 : b.minLon + (x : ℚ) * rowLonStep env b resolution_km lat =
      b.minLon + (y : ℚ) * rowLonStep env b resolution_km lat := congrArg Prod.fst hxy
  have h2 : (x : ℚ) = (y : ℚ) :=
    mul_right_cancel₀ (ne_of_gt hs) (add_left_cancel h1)
  exact_mod_cast h2

theorem rowLatticePoints_snd (env : TrigEnv) (b : Bounds) (resolution_km lat : ℚ) :
    ∀ p ∈ rowLatticePoints env b resolution_km lat, p.2 = lat := by
  unfold rowLatticePoints
  intro p hp
  obtain ⟨k, _, rfl⟩ := List.mem_map.mp hp
  rfl

theorem latticeLats_nodup (env : TrigEnv) (b : Bounds) (resolution_km : ℚ)
    (hpi : 0 < env.pi) (hres : 0 < resolution_km) :
    (latticeLats env b resolution_km).Nodup := by
  unfold latticeLats
  dsimp only
  apply List.Nodup.map_on _ (List.nodup_range _)
  intro x _ y _ hxy
  have hs : 0 < (resolution_km / 6371) * (180 / env.pi) := by positivity
  have h2 : (x : ℚ) = (y : ℚ) :=
    mul_right_cancel₀ (ne_of_gt hs) (add_left_cancel hxy)
  exact_mod_cast h2

theorem latticePoints_nodup (env : TrigEnv) (region : MultiPolygon) (resolution_km : ℚ)
    (hpi : 0 < env.pi) (hres : 0 < resolution_km) :
    (latticePoints env region resolution_km).Nodup := by
  unfold latticePoints
  rw [List.flatMap_def, List.nodup_flatten]
  constructor
  · intro l hl
    obtain ⟨lat, _, rfl⟩ := List.mem_map.mp hl
    exact rowLatticePoints_nodup env (boundsOf region) resolution_km lat
      (rowLonStep_pos env (boundsOf region) resolution_km lat hres (boundsOf_le region).1)
  · apply List.Pairwise.map (R := fun a b : ℚ => a ≠ b)
    · intro a b hab p hpa hpb
      exact hab ((rowLatticePoints_snd env _ resolution_km a p hpa).symm.trans
        (rowLatticePoints_snd env _ resolution_km b p hpb))
    · exact latticeLats_nodup env (boundsOf region) resolution_km hpi hres

theorem grid_points_nodup (env : TrigEnv) (region : MultiPolygon) (resolution_km : ℚ)
    (hpi : 0 < env.pi) (hres : 0 < resolution_km) :
    (get_grid_points_in_polygon_km env region resolution_km).Nodup :=
  List.Nodup.filter _ (latticePoints_nodup env region resolution_km hpi hres)

theorem getD_mem_of_lt {α : Type} (l : List α) (i : ℕ) (d : α) (h : i < l.length) :
    l.getD i d ∈ l := by
  rw [List.getD_eq_getElem l d h]
  exact List.getElem_mem h

-- ## Claim theorems

/-- Claim C3, counterexample: for the unit square region at a positive
resolution, the very first lattice point `(0, 0)` lies on the region's
boundary (so the boundary-inclusive test of the spec accepts it), yet it is
NOT emitted by the grid generator, because the source's
`polygon.contains(point)` is boundary-exclusive. -/
theorem grid_boundary_point_not_emitted :
    (0 : ℚ) < 6371 ∧
    boundaryInclusiveContains unitSquareRegion (0, 0) = true ∧
    ((0, 0) : GeoPoint) ∈ latticePoints testTrigEnv unitSquareRegion 6371 ∧
    ((0, 0) : GeoPoint) ∉ get_grid_points_in_polygon_km testTrigEnv unitSquareRegion 6371 := by
  with_unfolding_all decide

/-- Claim C3, amended: for every polygon and resolution, the grid generator
emits a lattice point exactly when the point passes shapely's
boundary-EXCLUSIVE interior containment test; in particular a lattice point
lying exactly on the region's boundary is never emitted. -/
theorem grid_points_emission_iff (env : TrigEnv) (region : MultiPolygon)
    (resolution_km : ℚ) :
    ∀ p : GeoPoint, p ∈ get_grid_points_in_polygon_km env region resolution_km ↔
      p ∈ latticePoints env region resolution_km ∧ regionContains region p = true := by
  intro p
  unfold get_grid_points_in_polygon_km
  simp [List.mem_filter]

/-- Claim C4: the greedy selection loop of `select_scan_positions` (embedded
as the well-founded recursion `greedyLoop`, whose measure is the strictly
shrinking uncovered set, mirroring why the source loop terminates) always
returns, and at return either the uncovered fraction is at or below
`1 - coverage_requirement`, or no candidate fan covers any remaining
uncovered sample. -/
theorem select_scan_positions_stop (env : TrigEnv) (area : MultiPolygon)
    (cfg : SensorConfig) (resolution_km coverage_requirement : ℚ) :
    (((greedyResult env area cfg resolution_km coverage_requirement).2.card : ℚ) /
        ((get_grid_points_in_polygon_km env area resolution_km).length : ℚ) ≤
      1 - coverage_requirement) ∨
    (∀ idx, idx < (get_grid_points_in_polygon_km env area resolution_km).length →
      coverSet ((get_grid_points_in_polygon_km env area resolution_km).map
          (fun loc => fanOf env loc cfg))
        (get_grid_points_in_polygon_km env area resolution_km) idx
        (greedyResult env area cfg resolution_km coverage_requirement).2 = ∅) := by
  have h := greedyLoop_stop_spec
    ((get_grid_points_in_polygon_km env area resolution_km).map (fun loc => fanOf env loc cfg))
    (get_grid_points_in_polygon_km env area resolution_km) coverage_requirement
    (Finset.range (get_grid_points_in_polygon_km env area resolution_km).length)
  simp only [greedyResult]
  rcases h with h | h
  · exact Or.inl h
  · refine Or.inr (fun idx hidx => h idx ?_)
    rw [List.length_map]
    exact hidx

/-- Claim C8: for a fixed region, sensor config and resolution, the number
of selected scan positions is monotone in the coverage requirement: a lower
requirement never yields more selections. -/
theorem select_scan_positions_count_mono (env : TrigEnv) (area : MultiPolygon)
    (cfg : SensorConfig) (resolution_km : ℚ) (c1 c2 : ℚ) (h : c1 ≤ c2) :
    (select_scan_positions env area cfg resolution_km c1).length ≤
      (select_scan_positions env area cfg resolution_km c2).length := by
  simp only [select_scan_positions, greedyResult, List.length_map]
  exact greedyLoop_len_mono _ _ c1 c2 h _

theorem select_scan_positions_count_mono_witness :
    (0 : ℚ) ≤ 1 ∧
    (select_scan_positions testTrigEnv threeSquareRegion ⟨1, 0, 360⟩ 6371 0).length ≤
      (select_scan_positions testTrigEnv threeSquareRegion ⟨1, 0, 360⟩ 6371 1).length :=
  ⟨by norm_num,
   select_scan_positions_count_mono testTrigEnv threeSquareRegion ⟨1, 0, 360⟩ 6371 0 1
     (by norm_num)⟩

/-- Claim C10: every selected scan position pairs a candidate grid point
with the given sensor config, and no two selections share a location (the
greedy loop never selects the same candidate twice, and distinct candidate
grid points are distinct locations). -/
theorem select_scan_positions_valid_and_distinct (env : TrigEnv) (area : MultiPolygon)
    (cfg : SensorConfig) (resolution_km coverage_requirement : ℚ)
    (hpi : 0 < env.pi) (hres : 0 < resolution_km) :
    (∀ sp ∈ select_scan_positions env area cfg resolution_km coverage_requirement,
      sp.config = cfg ∧
      sp.location ∈ get_grid_points_in_polygon_km env area resolution_km) ∧
    ((select_scan_positions env area cfg resolution_km coverage_requirement).map
      (fun sp => sp.location)).Nodup := by
  obtain ⟨hnodup, hmem⟩ := greedyLoop_sel_spec
    ((get_grid_points_in_polygon_km env area resolution_km).map (fun loc => fanOf env loc cfg))
    (get_grid_points_in_polygon_km env area resolution_km) coverage_requirement
    (Finset.range (get_grid_points_in_polygon_km env area resolution_km).length)
  constructor
  · intro sp hsp
    simp only [select_scan_positions, greedyResult] at hsp
    obtain ⟨idx, hidx, rfl⟩ := List.mem_map.mp hsp
    have hlt := (hmem idx hidx).1
    rw [List.length_map] at hlt
    exact ⟨rfl, getD_mem_of_lt _ _ _ hlt⟩
  · simp only [select_scan_positions, greedyResult, List.map_map]
    apply List.Nodup.map_on _ hnodup
    intro x hx y hy hxy
    have hx2 := (hmem x hx).1
    have hy2 := (hmem y hy).1
    rw [List.length_map] at hx2 hy2
    simp only [Function.comp] at hxy
    rw [List.getD_eq_getElem _ _ hx2, List.getD_eq_getElem _ _ hy2] at hxy
    exact (List.Nodup.getElem_inj_iff
      (grid_points_nodup env area resolution_km hpi hres)).mp hxy

theorem select_scan_positions_valid_and_distinct_witness :
    (0 : ℚ) < testTrigEnv.pi ∧ (0 : ℚ) < 6371 ∧
    ((∀ sp ∈ select_scan_positions testTrigEnv threeSquareRegion ⟨1, 0, 360⟩ 6371 (1 / 2),
        sp.config = ⟨1, 0, 360⟩ ∧
        sp.location ∈ get_grid_points_in_polygon_km testTrigEnv threeSquareRegion 6371) ∧
      ((select_scan_positions testTrigEnv threeSquareRegion ⟨1, 0, 360⟩ 6371 (1 / 2)).map
        (fun sp => sp.location)).Nodup) :=
  ⟨by with_unfolding_all decide, by norm_num,
   select_scan_positions_valid_and_distinct testTrigEnv threeSquareRegion ⟨1, 0, 360⟩ 6371
     (1 / 2) (by with_unfolding_all decide) (by norm_num)⟩

/-- Claim C9: the fan footprint polygon is the apex followed by exactly 20
arc points, one for each of the 20 angles evenly spaced across
`[azimuth - fan/2, azimuth + fan/2]` (consecutive spacing `fan/19`), with
angular radius `(range_km / 6371) · (180 / pi)` and offsets
`Δlat = r·cos(angle)`, `Δlon = r·sin(angle)/cos(center_lat)`. -/
theorem create_fan_polygon_structure (env : TrigEnv) (lon lat r az fan : ℚ) :
    create_fan_polygon env lon lat r az fan =
      (lon, lat) :: (List.range 20).map (fun k : ℕ =>
        (lon + ((r / 6371) * (180 / env.pi)) *
            env.sin (radians env ((az - fan / 2) + (k : ℚ) * (fan / 19))) /
            env.cos (radians env lat),
         lat + ((r / 6371) * (180 / env.pi)) *
            env.cos (radians env ((az - fan / 2) + (k : ℚ) * (fan / 19))))) := by
  unfold create_fan_polygon linspace
  norm_num

/-- Claim C7: with an empty list of placed sensors, the coverage metrics
calculator returns estimated coverage 0 and area coverage 0, and the
geometry union is never invoked (the internal union value is `none`). -/
theorem calculate_coverage_info_no_sensors {G : Type} (env : TrigEnv)
    (ops : GeometryOps G) (area : MultiPolygon) (resolution_km : ℚ) :
    calculate_coverage_info env ops area [] resolution_km =
      ⟨0, 0, 0⟩ ∧
    coverageTotalGeom ops
      (([] : List ScanPosition).map (fun s => fanOf env s.location s.config)) = none := by
  constructor
  · unfold calculate_coverage_info coverageTotalGeom
    simp
  · rfl

/-- Claim C2, counterexample: in the integer program formulated by
`optimize_sensor_placement` (here on a concrete region with four grid
samples and no configurations), the assignment that sets
`overlap_count[0] = -1` and `overlap_count[1] = 2` is feasible — the model
imposes the upper bound `overlap_count[i] ≤ 2` but NO lower bound 0, since
the `CoveredCount` variables are declared `Integer` with default
(unbounded) bounds. -/
theorem placement_overlap_negative_counterexample :
    PlacementFeasible
      (optimize_sensor_placement_model testTrigEnv threeSquareRegion [] 6371 99 0 0)
      negativeOverlapAssignment ∧
    negativeOverlapAssignment.y_prime 0 < 0 ∧
    0 < (optimize_sensor_placement_model testTrigEnv threeSquareRegion [] 6371 99 0 0).num_locations := by
  with_unfolding_all decide

/-- Claim C2, amended: in the integer program formulated by
`optimize_sensor_placement`, every overlap-count variable satisfies the
upper bound `overlap_count[i] ≤ 2` in every feasible assignment; the lower
bound 0 is not imposed. -/
theorem placement_overlap_upper_bound (env : TrigEnv) (area : MultiPolygon)
    (cfgs : List SensorConfig) (resolution_km : ℚ) (max_sensors : ℕ)
    (coverage_requirement encourage_overlapping : ℚ) (a : PlacementAssignment)
    (hfeas : PlacementFeasible
      (optimize_sensor_placement_model env area cfgs resolution_km max_sensors
        coverage_requirement encourage_overlapping) a) :
    ∀ i, i < (optimize_sensor_placement_model env area cfgs resolution_km max_sensors
        coverage_requirement encourage_overlapping).num_locations →
      a.y_prime i ≤ 2 :=
  hfeas.2.2.2.2.1

theorem placement_overlap_upper_bound_witness :
    PlacementFeasible
      (optimize_sensor_placement_model testTrigEnv threeSquareRegion [] 6371 99 0 0)
      zeroPlacementAssignment ∧
    zeroPlacementAssignment.y_prime 0 ≤ 2 :=
  ⟨by with_unfolding_all decide,
   placement_overlap_upper_bound testTrigEnv threeSquareRegion [] 6371 99 0 0
     zeroPlacementAssignment (by with_unfolding_all decide) 0
     (by with_unfolding_all decide)⟩

theorem argminAux_spec (l : List ℚ) :
    ∀ (i bi : ℕ) (bv : ℚ) (val : ℕ → ℚ),
      val bi = bv →
      (∀ t, t < l.length → val (i + t) = l.getD t 0) →
      ((argminAux i bi bv l = bi ∨ ∃ t, t < l.length ∧ argminAux i bi bv l = i + t) ∧
       val (argminAux i bi bv l) ≤ bv ∧
       ∀ t, t < l.length → val (argminAux i bi bv l) ≤ l.getD t 0) := by
  induction l with
  | nil =>
    intro i bi bv val hval _
    refine ⟨Or.inl rfl, le_of_eq hval, ?_⟩
    intro t ht
    exact absurd ht (Nat.not_lt_zero t)
  | cons v rest ih =>
    intro i bi bv val hval hvals
    have hv0 : val i = v := by
      have := hvals 0 (by simp)
      simpa using this
    have hshift : ∀ t, t < rest.length → val (i + 1 + t) = rest.getD t 0 := by
      intro t ht
      have := hvals (t + 1) (by simpa using Nat.succ_lt_succ ht)
      rw [show i + 1 + t = i + (t + 1) by omega]
      simpa [List.getD_cons_succ] using this
    simp only [argminAux]
    by_cases hlt : v < bv
    · simp only [hlt, if_true]
      obtain ⟨hidx, hle, hall⟩ := ih (i + 1) i v val hv0 hshift
      refine ⟨?_, le_trans hle (le_of_lt hlt), ?_⟩
      · rcases hidx with h | ⟨t, ht, heq⟩
        · exact Or.inr ⟨0, by simp, by omega⟩
        · exact Or.inr ⟨t + 1, by simpa using Nat.succ_lt_succ ht, by omega⟩
      · intro t ht
        cases t with
        | zero => simpa [List.getD_cons_zero] using hle
        | succ t' =>
          have := hall t' (by simpa using Nat.lt_of_succ_lt_succ ht)
          simpa [List.getD_cons_succ] using this
    · simp only [hlt, if_false]
      obtain ⟨hidx, hle, hall⟩ := ih (i + 1) bi bv val hval hshift
      refine ⟨?_, hle, ?_⟩
      · rcases hidx with h | ⟨t, ht, heq⟩
        · exact Or.inl h
        · exact Or.inr ⟨t + 1, by simpa using Nat.succ_lt_succ ht, by omega⟩
      · intro t ht
        cases t with
        | zero =>
          simp only [List.getD_cons_zero]
          exact le_trans hle (le_of_not_lt hlt)
        | succ t' =>
          have := hall t' (by simpa using Nat.lt_of_succ_lt_succ ht)
          simpa [List.getD_cons_succ] using this

theorem argminIdx_spec (l : List ℚ) (h : l ≠ []) :
    argminIdx l < l.length ∧ ∀ j, j < l.length → l.getD (argminIdx l) 0 ≤ l.getD j 0 := by
  cases l with
  | nil => exact absurd rfl h
  | cons v rest =>
    simp only [argminIdx]
    have hshift : ∀ t, t < rest.length → (fun t => (v :: rest).getD t 0) (1 + t) = rest.getD t 0 := by
      intro t ht
      simp only
      rw [show 1 + t = t + 1 by omega, List.getD_cons_succ]
    obtain ⟨hidx, hle, hall⟩ :=
      argminAux_spec rest 1 0 v (fun t => (v :: rest).getD t 0) (by simp) hshift
    constructor
    · rcases hidx with h0 | ⟨t, ht, heq⟩
      · rw [h0]
        simp
      · rw [heq]
        simp only [List.length_cons]
        omega
    · intro j hj
      cases j with
      | zero =>
        simpa [List.getD_cons_zero] using hle
      | succ t =>
        have := hall t (by simpa using Nat.lt_of_succ_lt_succ hj)
        simpa [List.getD_cons_succ] using this

theorem clustersOf_length (env : TrigEnv) (sps : List ScanPosition) (depots : List GeoPoint) :
    (clustersOf env sps depots).length = depots.length :=
  foldl_preserve (fun cls => cls.length = depots.length) (clusterStep env depots)
    (fun cls sp hc => by
      show (clusterStep env depots cls sp).length = depots.length
      simp only [clusterStep, List.length_set]
      exact hc)
    sps _ (List.length_replicate _ _)

theorem getD_set_same {α : Type} (l : List α) (i : ℕ) (v d : α) (hi : i < l.length) :
    (l.set i v).getD i d = v := by
  rw [List.getD_eq_getElem?_getD, List.getElem?_set]
  simp [hi]

theorem getD_set_ne {α : Type} (l : List α) (i j : ℕ) (v d : α) (hij : i ≠ j) :
    (l.set i v).getD j d = l.getD j d := by
  rw [List.getD_eq_getElem?_getD, List.getElem?_set, if_neg hij, ← List.getD_eq_getElem?_getD]

theorem getD_eq_nil_of_le {α : Type} (l : List (List α)) (i : ℕ) (hi : l.length ≤ i) :
    l.getD i [] = [] := by
  rw [List.getD_eq_getElem?_getD, List.getElem?_eq_none hi]
  rfl

theorem clusterStep_getD_mono (env : TrigEnv) (depots : List GeoPoint)
    (cls : List (List ScanPosition)) (sp : ScanPosition) (i : ℕ) :
    ∀ x, x ∈ cls.getD i [] → x ∈ (clusterStep env depots cls sp).getD i [] := by
  intro x hx
  unfold clusterStep
  by_cases hij : argminIdx (depots.map (fun d => haversine_dist env sp.location d)) = i
  · by_cases hlen : i < cls.length
    · rw [hij, getD_set_same _ _ _ _ hlen]
      exact List.mem_append_left _ (hij ▸ hx)
    · rw [getD_eq_nil_of_le cls i (le_of_not_lt hlen)] at hx
      cases hx
  · rw [getD_set_ne _ _ _ _ _ hij]
    exact hx

theorem clustersFold_getD_mono (env : TrigEnv) (depots : List GeoPoint) :
    ∀ (l : List ScanPosition) (acc : List (List ScanPosition)) (i : ℕ) (x : ScanPosition),
      x ∈ acc.getD i [] → x ∈ (l.foldl (clusterStep env depots) acc).getD i [] := by
  intro l
  induction l with
  | nil => intro acc i x hx; exact hx
  | cons sp rest ih =>
    intro acc i x hx
    exact ih _ i x (clusterStep_getD_mono env depots acc sp i x hx)

theorem clustersFold_assigned (env : TrigEnv) (depots : List GeoPoint) (hd : depots ≠ []) :
    ∀ (l : List ScanPosition) (acc : List (List ScanPosition)),
      acc.length = depots.length →
      ∀ sp ∈ l, sp ∈ (l.foldl (clusterStep env depots) acc).getD
        (argminIdx (depots.map (fun d => haversine_dist env sp.location d))) [] := by
  intro l
  induction l with
  | nil => intro acc _ sp h; cases h
  | cons sp0 rest ih =>
    intro acc hlen sp hmem
    rw [List.foldl_cons]
    rcases List.mem_cons.mp hmem with rfl | hmem'
    · apply clustersFold_getD_mono
      have hlt : argminIdx (depots.map (fun d => haversine_dist env sp.location d)) <
          acc.length := by
        rw [hlen, ← List.length_map depots (fun d => haversine_dist env sp.location d)]
        exact (argminIdx_spec _ (by simpa using hd)).1
      show sp ∈ (clusterStep env depots acc sp).getD _ []
      simp only [clusterStep]
      rw [getD_set_same _ _ _ _ hlt]
      exact List.mem_append_right _ (by simp)
    · exact ih (clusterStep env depots acc sp0)
        (by simp only [clusterStep, List.length_set]; exact hlen) sp hmem'

theorem planRoutesAux_ok (renv : RouteEnv) (area : MultiPolygon) :
    ∀ (l : List (GeoPoint × List ScanPosition)) (routes : List (List GeoPoint)),
      planRoutesAux renv area l = .ok routes →
      routes.length = l.length ∧
      ∀ i, i < l.length →
        solveDepotRoute renv area (l.getD i ((0, 0), [])).1 (l.getD i ((0, 0), [])).2 =
          .ok (routes.getD i []) := by
  intro l
  induction l with
  | nil =>
    intro routes h
    simp only [planRoutesAux] at h
    injection h with h'
    subst h'
    exact ⟨rfl, fun i hi => absurd hi (Nat.not_lt_zero i)⟩
  | cons dc rest ih =>
    intro routes h
    obtain ⟨depot, assigned⟩ := dc
    simp only [planRoutesAux] at h
    split at h
    · simp at h
    · rename_i r heq
      split at h
      · rename_i rs hrest
        injection h with h'
        subst h'
        obtain ⟨hlen, hcomp⟩ := ih rs hrest
        refine ⟨by simp [hlen], ?_⟩
        intro i hi
        cases i with
        | zero => simpa [List.getD_cons_zero] using heq
        | succ i' =>
          simpa [List.getD_cons_succ] using hcomp i' (Nat.lt_of_succ_lt_succ hi)
      · simp at h

theorem tourWalk_ok_shape (pts : List GeoPoint) (depot : GeoPoint) (succ : ℕ → Option ℕ) :
    ∀ (fuel cur : ℕ) (l : List GeoPoint), tourWalk pts depot succ fuel cur = .ok l →
      ∃ mid, l = mid ++ [depot] := by
  intro fuel
  induction fuel with
  | zero =>
    intro cur l h
    simp [tourWalk] at h
  | succ f ih =>
    intro cur l h
    simp only [tourWalk] at h
    split at h
    · simp at h
    · rename_i nxt hnxt
      by_cases h0 : nxt = 0
      · rw [if_pos h0] at h
        injection h with h'
        exact ⟨[], h'.symm⟩
      · rw [if_neg h0] at h
        split at h
        · rename_i rest hrest
          injection h with h'
          obtain ⟨mid, rfl⟩ := ih nxt rest hrest
          exact ⟨pts.getD nxt depot :: mid, by rw [← h']; rfl⟩
        · simp at h

theorem solveDepotRoute_ok_cases (renv : RouteEnv) (area : MultiPolygon) (depot : GeoPoint)
    (assigned : List ScanPosition) (route : List GeoPoint)
    (h : solveDepotRoute renv area depot assigned = .ok route) :
    (assigned = [] ∧ route = [depot, depot]) ∨
    (assigned ≠ [] ∧
      (renv.solve (depotInstance renv area depot assigned)).status = SolverStatus.optimal ∧
      ∃ mid, route = depot :: mid ++ [depot]) := by
  simp only [solveDepotRoute] at h
  by_cases hlen : (tspPoints depot assigned).length = 1
  · rw [if_pos hlen] at h
    left
    have hempty : assigned = [] := by
      unfold tspPoints at hlen
      simp only [List.length_cons, List.length_map, Nat.add_left_eq_self] at hlen
      exact List.eq_nil_of_length_eq_zero hlen
    injection h with h'
    exact ⟨hempty, h'.symm⟩
  · rw [if_neg hlen] at h
    right
    have hne : assigned ≠ [] := by
      intro hassigned
      apply hlen
      rw [hassigned]
      rfl
    by_cases hstat :
        (renv.solve (depotInstance renv area depot assigned)).status = SolverStatus.optimal
    · refine ⟨hne, hstat, ?_⟩
      rw [if_pos hstat] at h
      split at h
      · rename_i rest hwalk
        injection h with h'
        obtain ⟨mid, hmid⟩ := tourWalk_ok_shape _ _ _ _ _ _ hwalk
        exact ⟨mid, by rw [← h', hmid]; rfl⟩
      · simp at h
    · rw [if_neg hstat] at h
      simp at h

theorem zip_cluster_getD (renv : RouteEnv) (sps : List ScanPosition)
    (depots : List GeoPoint) (i : ℕ) (hi : i < depots.length) :
    (depots.zip (clustersOf renv.trig sps depots)).getD i ((0, 0), []) =
      (depots.getD i (0, 0), (clustersOf renv.trig sps depots).getD i []) := by
  have hzlen : (depots.zip (clustersOf renv.trig sps depots)).length = depots.length := by
    rw [List.length_zip, clustersOf_length]
    exact min_self _
  rw [List.getD_eq_getElem _ _ (by rw [hzlen]; exact hi), List.getElem_zip,
    List.getD_eq_getElem _ _ hi,
    List.getD_eq_getElem _ _ (by rw [clustersOf_length]; exact hi)]

/-- Claim C5: whenever `plan_sensor_routes` returns successfully, the solver
reported an optimal solution for every depot with a nonempty cluster
(contrapositive: any per-depot non-optimal status — including infeasibility
caused by the operational-area arc restriction — makes the planner raise),
and every returned route is a closed cycle starting and ending at its
depot: no route with a missing arc or an incomplete cycle is ever
returned (the extraction errors out in those cases). -/
theorem plan_sensor_routes_failure_semantics (renv : RouteEnv) (sps : List ScanPosition)
    (depots : List GeoPoint) (area : MultiPolygon) (routes : List (List GeoPoint))
    (h : plan_sensor_routes renv sps depots area = .ok routes) :
    (∀ i, i < depots.length → (clustersOf renv.trig sps depots).getD i [] ≠ [] →
      (renv.solve (depotInstance renv area (depots.getD i (0, 0))
        ((clustersOf renv.trig sps depots).getD i []))).status = SolverStatus.optimal) ∧
    (∀ i, i < depots.length →
      ∃ mid, routes.getD i [] = depots.getD i (0, 0) :: mid ++ [depots.getD i (0, 0)]) := by
  unfold plan_sensor_routes at h
  split at h
  · simp at h
  · obtain ⟨hlen, hcomp⟩ := planRoutesAux_ok renv area _ routes h
    have hzlen : (depots.zip (clustersOf renv.trig sps depots)).length = depots.length := by
      rw [List.length_zip, clustersOf_length]
      exact min_self _
    constructor
    · intro i hi hne
      have hc := hcomp i (by rw [hzlen]; exact hi)
      rw [zip_cluster_getD renv sps depots i hi] at hc
      rcases solveDepotRoute_ok_cases _ _ _ _ _ hc with ⟨hempty, _⟩ | ⟨_, hstat, _⟩
      · exact absurd hempty hne
      · exact hstat
    · intro i hi
      have hc := hcomp i (by rw [hzlen]; exact hi)
      rw [zip_cluster_getD renv sps depots i hi] at hc
      rcases solveDepotRoute_ok_cases _ _ _ _ _ hc with ⟨_, hroute⟩ | ⟨_, _, mid, hroute⟩
      · exact ⟨[], hroute⟩
      · exact ⟨mid, hroute⟩

theorem plan_sensor_routes_failure_semantics_witness :
    plan_sensor_routes stubRouteEnv [] [((0 : ℚ), (0 : ℚ))] [] =
      .ok [[((0 : ℚ), (0 : ℚ)), ((0 : ℚ), (0 : ℚ))]] ∧
    ((∀ i, i < [((0 : ℚ), (0 : ℚ))].length →
      (clustersOf stubRouteEnv.trig [] [((0 : ℚ), (0 : ℚ))]).getD i [] ≠ [] →
      (stubRouteEnv.solve (depotInstance stubRouteEnv [] ([((0 : ℚ), (0 : ℚ))].getD i (0, 0))
        ((clustersOf stubRouteEnv.trig [] [((0 : ℚ), (0 : ℚ))]).getD i []))).status =
        SolverStatus.optimal) ∧
    (∀ i, i < [((0 : ℚ), (0 : ℚ))].length →
      ∃ mid, [[((0 : ℚ), (0 : ℚ)), ((0 : ℚ), (0 : ℚ))]].getD i [] =
        ([((0 : ℚ), (0 : ℚ))].getD i (0, 0)) :: mid ++ [[((0 : ℚ), (0 : ℚ))].getD i (0, 0)])) :=
  ⟨rfl, plan_sensor_routes_failure_semantics stubRouteEnv [] [(0, 0)] []
    [[(0, 0), (0, 0)]] rfl⟩

/-- Claim C6: before any tour is solved, every scan point is assigned to a
cluster of a depot at minimum haversine distance from it (first minimum, as
`np.argmin`), and whenever the planner returns, every depot whose cluster is
empty yields the trivial route `[depot, depot]`. -/
theorem plan_sensor_routes_clustering (renv : RouteEnv) (sps : List ScanPosition)
    (depots : List GeoPoint) (area : MultiPolygon) (hd : depots ≠ []) :
    (∀ sp ∈ sps, ∃ i, i < depots.length ∧
      sp ∈ (clustersOf renv.trig sps depots).getD i [] ∧
      ∀ j, j < depots.length →
        haversine_dist renv.trig sp.location (depots.getD i (0, 0)) ≤
          haversine_dist renv.trig sp.location (depots.getD j (0, 0))) ∧
    (∀ routes, plan_sensor_routes renv sps depots area = .ok routes →
      ∀ i, i < depots.length → (clustersOf renv.trig sps depots).getD i [] = [] →
        routes.getD i [] = [depots.getD i (0, 0), depots.getD i (0, 0)]) := by
  constructor
  · intro sp hsp
    have hdsne : depots.map (fun d => haversine_dist renv.trig sp.location d) ≠ [] := by
      simpa using hd
    obtain ⟨hlt, hmin⟩ := argminIdx_spec _ hdsne
    rw [List.length_map] at hlt
    refine ⟨argminIdx (depots.map (fun d => haversine_dist renv.trig sp.location d)),
      hlt, ?_, ?_⟩
    · exact clustersFold_assigned renv.trig depots hd sps
        (List.replicate depots.length []) (List.length_replicate _ _) sp hsp
    · intro j hj
      have h1 := hmin j (by rw [List.length_map]; exact hj)
      have e1 : (depots.map (fun d => haversine_dist renv.trig sp.location d)).getD
          (argminIdx (depots.map (fun d => haversine_dist renv.trig sp.location d))) 0 =
          haversine_dist renv.trig sp.location (depots.getD
            (argminIdx (depots.map (fun d => haversine_dist renv.trig sp.location d))) (0, 0)) := by
        rw [List.getD_eq_getElem _ _ (by rw [List.length_map]; exact hlt), List.getElem_map,
          List.getD_eq_getElem _ _ hlt]
      have e2 : (depots.map (fun d => haversine_dist renv.trig sp.location d)).getD j 0 =
          haversine_dist renv.trig sp.location (depots.getD j (0, 0)) := by
        rw [List.getD_eq_getElem _ _ (by rw [List.length_map]; exact hj), List.getElem_map,
          List.getD_eq_getElem _ _ hj]
      rw [e1, e2] at h1
      exact h1
  · intro routes h i hi hempty
    unfold plan_sensor_routes at h
    split at h
    · simp at h
    · obtain ⟨hlen, hcomp⟩ := planRoutesAux_ok renv area _ routes h
      have hzlen : (depots.zip (clustersOf renv.trig sps depots)).length = depots.length := by
        rw [List.length_zip, clustersOf_length]
        exact min_self _
      have hc := hcomp i (by rw [hzlen]; exact hi)
      rw [zip_cluster_getD renv sps depots i hi, hempty] at hc
      have htriv : solveDepotRoute renv area (depots.getD i (0, 0)) [] =
          .ok [depots.getD i (0, 0), depots.getD i (0, 0)] := rfl
      have := htriv.symm.trans hc
      injection this with h'
      exact h'.symm

theorem plan_sensor_routes_clustering_witness :
    ([((0 : ℚ), (0 : ℚ))] : List GeoPoint) ≠ [] ∧
    ((∀ sp ∈ ([] : List ScanPosition), ∃ i, i < [((0 : ℚ), (0 : ℚ))].length ∧
      sp ∈ (clustersOf stubRouteEnv.trig [] [((0 : ℚ), (0 : ℚ))]).getD i [] ∧
      ∀ j, j < [((0 : ℚ), (0 : ℚ))].length →
        haversine_dist stubRouteEnv.trig sp.location ([((0 : ℚ), (0 : ℚ))].getD i (0, 0)) ≤
          haversine_dist stubRouteEnv.trig sp.location ([((0 : ℚ), (0 : ℚ))].getD j (0, 0))) ∧
    (∀ routes, plan_sensor_routes stubRouteEnv [] [((0 : ℚ), (0 : ℚ))] [] = .ok routes →
      ∀ i, i < [((0 : ℚ), (0 : ℚ))].length →
        (clustersOf stubRouteEnv.trig [] [((0 : ℚ), (0 : ℚ))]).getD i [] = [] →
          routes.getD i [] = [[((0 : ℚ), (0 : ℚ))].getD i (0, 0),
            [((0 : ℚ), (0 : ℚ))].getD i (0, 0)])) :=
  ⟨by simp, plan_sensor_routes_clustering stubRouteEnv [] [(0, 0)] [] (by simp)⟩

theorem iterF_lt (n : ℕ) (σ : ℕ → ℕ) (hσ : ∀ i, i < n → σ i < n) (start : ℕ)
    (hs : start < n) : ∀ k, iterF σ start k < n := by
  intro k
  induction k with
  | zero => exact hs
  | succ k ih => exact hσ _ ih

theorem cycle_exists_return (n : ℕ) (σ : ℕ → ℕ) (u : ℕ → ℚ) (h : CycleHyp n σ u) :
    ∃ T, 1 ≤ T ∧ T ≤ n ∧ iterF σ 0 T = 0 := by
  by_contra hcon
  push_neg at hcon
  have h0n : 0 < n := by have := h.two_le; omega
  have hlt : ∀ k, iterF σ 0 k < n := iterF_lt n σ h.maps_lt 0 h0n
  have hpos : ∀ t, 1 ≤ t → t ≤ n → 1 ≤ iterF σ 0 t := by
    intro t h1 h2
    exact Nat.one_le_iff_ne_zero.mpr (hcon t h1 h2)
  have hchain : ∀ t, 1 ≤ t → t ≤ n → u (iterF σ 0 1) + ((t : ℚ) - 1) ≤ u (iterF σ 0 t) := by
    intro t
    induction t with
    | zero => intro h1; exact absurd h1 (by norm_num)
    | succ t ih =>
      intro _ h2
      by_cases ht : 1 ≤ t
      · have hstep : u (iterF σ 0 t) + 1 ≤ u (iterF σ 0 (t + 1)) :=
          h.increase (iterF σ 0 t) (hpos t ht (by omega)) (hlt t)
            (hpos (t + 1) (by omega) h2)
        have iht := ih ht (by omega)
        push_cast
        linarith
      · have ht0 : t = 0 := by omega
        subst ht0
        norm_num
  have hn1 := hchain n (by have := h.two_le; omega) (le_refl n)
  have hu1 : 1 ≤ u (iterF σ 0 1) :=
    h.lower _ (hpos 1 (le_refl 1) (by have := h.two_le; omega)) (hlt 1)
  have hun : u (iterF σ 0 n) ≤ (n : ℚ) - 1 :=
    h.upper _ (hpos n (by have := h.two_le; omega) (le_refl n)) (hlt n)
  have h2q : (2 : ℚ) ≤ (n : ℚ) := by exact_mod_cast h.two_le
  linarith

theorem cycle_reaches_all (n : ℕ) (σ : ℕ → ℕ) (u : ℕ → ℚ) (h : CycleHyp n σ u) :
    iterF σ 0 n = 0 ∧
    (∀ k, 1 ≤ k → k < n → 1 ≤ iterF σ 0 k ∧ iterF σ 0 k < n) ∧
    (∀ a b, a < n → b < n → iterF σ 0 a = iterF σ 0 b → a = b) ∧
    (∀ m, 1 ≤ m → m < n → ∃ k, 1 ≤ k ∧ k < n ∧ iterF σ 0 k = m) := by
  have h0n : 0 < n := by have := h.two_le; omega
  have hlt : ∀ k, iterF σ 0 k < n := iterF_lt n σ h.maps_lt 0 h0n
  have hex := cycle_exists_return n σ u h
  obtain ⟨hT1, hTn, hTret⟩ := Nat.find_spec hex
  set T := Nat.find hex with hT
  have s1 : ∀ k, 1 ≤ k → k < T → iterF σ 0 k ≠ 0 := by
    intro k h1 h2 hk0
    exact Nat.find_min hex h2 ⟨h1, by omega, hk0⟩
  have s2 : ∀ a b, iterF σ 0 (a + 1) = iterF σ 0 (b + 1) → iterF σ 0 a = iterF σ 0 b := by
    intro a b hab
    exact h.inj _ _ (hlt a) (hlt b) hab
  have s3 : ∀ d a, a + d < T → iterF σ 0 a = iterF σ 0 (a + d) → d = 0 := by
    intro d a
    induction a with
    | zero =>
      intro hdT h0d
      by_contra hd0
      refine s1 d (Nat.one_le_iff_ne_zero.mpr hd0) (by omega) ?_
      have : iterF σ 0 (0 + d) = iterF σ 0 0 := h0d.symm
      rw [Nat.zero_add] at this
      exact this
    | succ a ih =>
      intro hdT had
      apply ih (by omega)
      apply s2
      rw [show a + 1 + d = (a + d) + 1 by omega] at had
      exact had
  have s3' : ∀ a b, a < T → b < T → iterF σ 0 a = iterF σ 0 b → a = b := by
    intro a b ha hb hab
    rcases Nat.lt_trichotomy a b with hord | heq | hord
    · have := s3 (b - a) a (by omega) (by rw [show a + (b - a) = b by omega]; exact hab)
      omega
    · exact heq
    · have := s3 (a - b) b (by omega) (by rw [show b + (a - b) = a by omega]; exact hab.symm)
      omega
  set V : Finset ℕ := (Finset.range T).image (iterF σ 0) with hV
  have hcardV : V.card = T := by
    rw [hV, Finset.card_image_of_injOn, Finset.card_range]
    intro a ha b hb hab
    exact s3' a b (Finset.mem_range.mp (Finset.mem_coe.mp ha))
      (Finset.mem_range.mp (Finset.mem_coe.mp hb)) hab
  have hVsub : ∀ v ∈ V, v < n := by
    intro v hv
    obtain ⟨k, _, rfl⟩ := Finset.mem_image.mp hv
    exact hlt k
  have h0V : (0 : ℕ) ∈ V :=
    Finset.mem_image.mpr ⟨0, Finset.mem_range.mpr (by omega), rfl⟩
  have s5 : ∀ v ∈ V, ∃ w ∈ V, σ w = v := by
    intro v hv
    obtain ⟨k, hk, rfl⟩ := Finset.mem_image.mp hv
    rw [Finset.mem_range] at hk
    cases k with
    | zero =>
      refine ⟨iterF σ 0 (T - 1),
        Finset.mem_image.mpr ⟨T - 1, Finset.mem_range.mpr (by omega), rfl⟩, ?_⟩
      have e1 : σ (iterF σ 0 (T - 1)) = iterF σ 0 ((T - 1) + 1) := rfl
      rw [e1, show (T - 1) + 1 = T by omega, hTret]
      rfl
    | succ k' =>
      exact ⟨iterF σ 0 k', Finset.mem_image.mpr ⟨k', Finset.mem_range.mpr (by omega), rfl⟩, rfl⟩
  have s6 : ∀ m, m < n → m ∉ V → ∀ t, iterF σ m t ∉ V ∧ iterF σ m t < n ∧ 1 ≤ iterF σ m t := by
    intro m hm hmV t
    induction t with
    | zero =>
      refine ⟨hmV, hm, ?_⟩
      rcases Nat.eq_zero_or_pos m with h0 | h1
      · subst h0
        exact absurd h0V hmV
      · exact h1
    | succ t iht =>
      obtain ⟨hnotV, hltn, _⟩ := iht
      have hnext_lt : iterF σ m (t + 1) < n := h.maps_lt _ hltn
      have hnextV : iterF σ m (t + 1) ∉ V := by
        intro hin
        obtain ⟨w, hwV, hw⟩ := s5 _ hin
        have heqw : iterF σ m t = w :=
          h.inj _ _ hltn (hVsub w hwV) (show σ (iterF σ m t) = σ w from hw.symm)
        exact hnotV (heqw ▸ hwV)
      refine ⟨hnextV, hnext_lt, ?_⟩
      rcases Nat.eq_zero_or_pos (iterF σ m (t + 1)) with h0 | h1
      · rw [h0] at hnextV
        exact absurd h0V hnextV
      · exact h1
  have s7 : ∀ m, m < n → m ∉ V → ∀ t : ℕ, u m + (t : ℚ) ≤ u (iterF σ m t) := by
    intro m hm hmV t
    induction t with
    | zero => simp [iterF]
    | succ t iht =>
      obtain ⟨_, hltn, hpos1⟩ := s6 m hm hmV t
      obtain ⟨_, _, hpos2⟩ := s6 m hm hmV (t + 1)
      have hstep : u (iterF σ m t) + 1 ≤ u (iterF σ m (t + 1)) :=
        h.increase _ hpos1 hltn hpos2
      push_cast
      linarith
  have hallV : ∀ m, m < n → m ∈ V := by
    intro m hm
    by_contra hmV
    obtain ⟨_, hltn, hpos1⟩ := s6 m hm hmV n
    have h7 := s7 m hm hmV n
    have hm1 : 1 ≤ m := (s6 m hm hmV 0).2.2
    have hum : 1 ≤ u m := h.lower m hm1 hm
    have hupper := h.upper _ hpos1 hltn
    have h2n : (2 : ℚ) ≤ (n : ℚ) := by exact_mod_cast h.two_le
    have hnn : ((n : ℕ) : ℚ) = (n : ℚ) := rfl
    linarith
  have hTeq : T = n := by
    have hsub : Finset.range n ⊆ V := fun m hm => hallV m (Finset.mem_range.mp hm)
    have hge : n ≤ V.card := by
      calc n = (Finset.range n).card := (Finset.card_range n).symm
        _ ≤ V.card := Finset.card_le_card hsub
    omega
  refine ⟨by rw [← hTeq]; exact hTret, ?_, ?_, ?_⟩
  · intro k h1 h2
    refine ⟨?_, hlt k⟩
    have := s1 k h1 (by omega)
    omega
  · intro a b ha hb hab
    exact s3' a b (by omega) (by omega) hab
  · intro m h1 h2
    obtain ⟨k, hk, hkm⟩ := Finset.mem_image.mp (hallV m h2)
    rw [Finset.mem_range] at hk
    refine ⟨k, ?_, by omega, hkm⟩
    rcases Nat.eq_zero_or_pos k with h0 | hp
    · subst h0
      exact absurd hkm (by simp [iterF]; omega)
    · exact hp

theorem tspArcs_mem_spec (renv : RouteEnv) (area : MultiPolygon) (pts : List GeoPoint) :
    ∀ a ∈ tspArcs renv area pts, a.1 < pts.length ∧ a.2 < pts.length ∧ a.1 ≠ a.2 := by
  intro a ha
  unfold tspArcs at ha
  simp only [List.mem_flatMap, List.mem_map, List.mem_filter, List.mem_range,
    Bool.and_eq_true, decide_eq_true_eq] at ha
  obtain ⟨i, hi, j, ⟨hj, hne, _⟩, rfl⟩ := ha
  exact ⟨hi, hj, hne⟩

theorem arcSum_binary_count (x : ℕ × ℕ → ℚ) :
    ∀ (l : List (ℕ × ℕ)), (∀ a ∈ l, x a = 0 ∨ x a = 1) →
      arcSum l x = ((l.filter (fun a => decide (x a = 1))).length : ℚ) := by
  intro l
  induction l with
  | nil => intro _; simp [arcSum]
  | cons a t ih =>
    intro hbin
    have ht := ih (fun b hb => hbin b (List.mem_cons_of_mem a hb))
    simp only [arcSum, List.map_cons, List.sum_cons] at *
    rcases hbin a (List.mem_cons_self a t) with h0 | h1
    · have hd : decide (x a = 1) = false := by
        apply decide_eq_false
        rw [h0]
        norm_num
      rw [List.filter_cons, hd]
      simp only [Bool.false_eq_true, if_false]
      rw [h0, zero_add, ht]
    · have hd : decide (x a = 1) = true := decide_eq_true h1
      rw [List.filter_cons, hd]
      simp only [if_true]
      rw [h1, ht, List.length_cons]
      push_cast
      ring

theorem ones_singleton (arcs : List (ℕ × ℕ)) (x : ℕ × ℕ → ℚ)
    (hbin : ∀ a ∈ arcs, x a = 0 ∨ x a = 1) (q : ℕ × ℕ → Bool)
    (hsum : arcSum (arcs.filter q) x = 1) :
    ∃ a, arcs.filter (fun b => q b && decide (x b = 1)) = [a] := by
  have hbin' : ∀ a ∈ arcs.filter q, x a = 0 ∨ x a = 1 :=
    fun a ha => hbin a (List.mem_of_mem_filter ha)
  have hcount := arcSum_binary_count x _ hbin'
  rw [hsum] at hcount
  have hlen : ((arcs.filter q).filter (fun a => decide (x a = 1))).length = 1 := by
    exact_mod_cast hcount.symm
  rw [List.filter_filter] at hlen
  have hflip : arcs.filter (fun b => q b && decide (x b = 1)) =
      arcs.filter (fun a => decide (x a = 1) && q a) :=
    List.filter_congr (fun a _ => by rw [Bool.and_comm])
  rw [hflip]
  exact List.length_eq_one.mp hlen

theorem succOf_eq (arcs : List (ℕ × ℕ)) (x : ℕ × ℕ → ℚ) (i : ℕ) (a : ℕ × ℕ)
    (hone : arcs.filter (fun b => decide (b.1 = i) && decide (x b = 1)) = [a]) :
    succOf arcs x i = some a.2 := by
  unfold succOf
  rw [hone]
  rfl

theorem filter_singleton_mem {α : Type} (l : List α) (p : α → Bool) (a : α)
    (h : l.filter p = [a]) : a ∈ l ∧ p a = true := by
  have hm : a ∈ l.filter p := by
    rw [h]
    exact List.mem_singleton.mpr rfl
  exact ⟨List.mem_of_mem_filter hm, List.of_mem_filter hm⟩

theorem filter_singleton_unique {α : Type} (l : List α) (p : α → Bool) (a : α)
    (h : l.filter p = [a]) : ∀ b ∈ l, p b = true → b = a := by
  intro b hb hpb
  have hm : b ∈ l.filter p := List.mem_filter.mpr ⟨hb, hpb⟩
  rw [h] at hm
  simpa using hm

theorem feasible_out (inst : TSPInstance) (res : TSPResult) (hfeas : TSPFeasible inst res)
    (i : ℕ) (hi : i < inst.n) :
    ∃ a, inst.arcs.filter (fun b => decide (b.1 = i) && decide (res.x b = 1)) = [a] := by
  obtain ⟨hbin, hdeg, hout0, _, _, _⟩ := hfeas
  rcases Nat.eq_zero_or_pos i with rfl | hpos
  · exact ones_singleton _ _ hbin _ hout0
  · exact ones_singleton _ _ hbin _ (hdeg i hpos hi).2

theorem feasible_in (inst : TSPInstance) (res : TSPResult) (hfeas : TSPFeasible inst res)
    (k : ℕ) (hk : k < inst.n) :
    ∃ a, inst.arcs.filter (fun b => decide (b.2 = k) && decide (res.x b = 1)) = [a] := by
  obtain ⟨hbin, hdeg, _, hin0, _, _⟩ := hfeas
  rcases Nat.eq_zero_or_pos k with rfl | hpos
  · exact ones_singleton _ _ hbin _ hin0
  · exact ones_singleton _ _ hbin _ (hdeg k hpos hk).1

theorem feasible_sigma (inst : TSPInstance) (res : TSPResult) (hfeas : TSPFeasible inst res) :
    ∀ i, i < inst.n →
      succOf inst.arcs res.x i = some ((succOf inst.arcs res.x i).getD 0) ∧
      (i, (succOf inst.arcs res.x i).getD 0) ∈ inst.arcs ∧
      res.x (i, (succOf inst.arcs res.x i).getD 0) = 1 := by
  intro i hi
  obtain ⟨a, ha⟩ := feasible_out inst res hfeas i hi
  have hsome := succOf_eq _ _ _ _ ha
  obtain ⟨hmem, hp⟩ := filter_singleton_mem _ _ _ ha
  rw [Bool.and_eq_true, decide_eq_true_eq, decide_eq_true_eq] at hp
  have ha2 : (succOf inst.arcs res.x i).getD 0 = a.2 := by
    rw [hsome]
    rfl
  refine ⟨by rw [hsome]; rfl, ?_, ?_⟩
  · rw [ha2, ← hp.1]
    exact hmem
  · rw [ha2, ← hp.1]
    exact hp.2

theorem feasible_sigma_inj (inst : TSPInstance) (res : TSPResult)
    (hfeas : TSPFeasible inst res)
    (hwf : ∀ a ∈ inst.arcs, a.1 < inst.n ∧ a.2 < inst.n ∧ a.1 ≠ a.2) :
    ∀ i j, i < inst.n → j < inst.n →
      (succOf inst.arcs res.x i).getD 0 = (succOf inst.arcs res.x j).getD 0 → i = j := by
  intro i j hi hj heq
  obtain ⟨_, hmemi, hxi⟩ := feasible_sigma inst res hfeas i hi
  obtain ⟨_, hmemj, hxj⟩ := feasible_sigma inst res hfeas j hj
  have hcn : (succOf inst.arcs res.x i).getD 0 < inst.n := (hwf _ hmemi).2.1
  obtain ⟨b, hb⟩ := feasible_in inst res hfeas _ hcn
  have hunique := filter_singleton_unique _ _ _ hb
  have h1 : (i, (succOf inst.arcs res.x i).getD 0) = b := by
    apply hunique _ hmemi
    rw [Bool.and_eq_true, decide_eq_true_eq, decide_eq_true_eq]
    exact ⟨rfl, hxi⟩
  have h2 : (j, (succOf inst.arcs res.x j).getD 0) = b := by
    apply hunique _ hmemj
    rw [Bool.and_eq_true, decide_eq_true_eq, decide_eq_true_eq]
    exact ⟨heq.symm, hxj⟩
  have := h1.trans h2.symm
  injection this

theorem range'_map_getD {α : Type} (d : α) (rest : List α) :
    (List.range' 1 rest.length).map (fun j => (d :: rest).getD j d) = rest := by
  apply List.ext_getElem
  · simp [List.length_range']
  · intro i h1 h2
    rw [List.getElem_map, List.getElem_range']
    rw [show 1 + 1 * i = i + 1 by omega]
    rw [List.getD_cons_succ]
    exact List.getD_eq_getElem rest d h2

theorem cycle_interior_perm (n : ℕ) (σ : ℕ → ℕ)
    (hmid : ∀ k, 1 ≤ k → k < n → 1 ≤ iterF σ 0 k ∧ iterF σ 0 k < n)
    (hinj : ∀ a b, a < n → b < n → iterF σ 0 a = iterF σ 0 b → a = b)
    (hsurj : ∀ m, 1 ≤ m → m < n → ∃ k, 1 ≤ k ∧ k < n ∧ iterF σ 0 k = m) :
    ((List.range' 1 (n - 1)).map (iterF σ 0)).Perm (List.range' 1 (n - 1)) := by
  apply List.perm_of_nodup_nodup_toFinset_eq
  · apply List.Nodup.map_on _ (List.nodup_range' _ _)
    intro a ha b hb hab
    rw [List.mem_range'_1] at ha hb
    exact hinj a b (by omega) (by omega) hab
  · exact List.nodup_range' _ _
  · ext m
    simp only [List.mem_toFinset, List.mem_map, List.mem_range'_1]
    constructor
    · rintro ⟨k, ⟨hk1, hk2⟩, rfl⟩
      have := hmid k hk1 (by omega)
      omega
    · intro hm
      obtain ⟨k, h1, h2, h3⟩ := hsurj m (by omega) (by omega)
      exact ⟨k, ⟨h1, by omega⟩, h3⟩

theorem tourWalk_succ_some (pts : List GeoPoint) (depot : GeoPoint) (succ : ℕ → Option ℕ)
    (fuel cur nxt : ℕ) (h : succ cur = some nxt) :
    tourWalk pts depot succ (fuel + 1) cur =
      if nxt = 0 then .ok [depot]
      else match tourWalk pts depot succ fuel nxt with
        | .ok rest => .ok (pts.getD nxt depot :: rest)
        | .error e => .error e := by
  simp only [tourWalk]
  rw [h]

theorem tourWalk_cycle_eq (pts : List GeoPoint) (depot : GeoPoint) (succ : ℕ → Option ℕ)
    (σ : ℕ → ℕ) (n : ℕ)
    (hs : ∀ i, i < n → succ i = some (σ i))
    (hret : iterF σ 0 n = 0)
    (hmid : ∀ k, 1 ≤ k → k < n → 1 ≤ iterF σ 0 k ∧ iterF σ 0 k < n)
    (hn : 1 ≤ n) :
    ∀ (fuel k : ℕ), k < n → n - k ≤ fuel →
      tourWalk pts depot succ fuel (iterF σ 0 k) =
        .ok ((List.range' (k + 1) (n - 1 - k)).map (fun j => pts.getD (iterF σ 0 j) depot)
          ++ [depot]) := by
  intro fuel
  induction fuel with
  | zero =>
    intro k hk hfuel
    omega
  | succ f ih =>
    intro k hk hfuel
    have hcur_lt : iterF σ 0 k < n := by
      rcases Nat.eq_zero_or_pos k with rfl | hkpos
      · exact hn
      · exact (hmid k hkpos hk).2
    rw [tourWalk_succ_some pts depot succ f (iterF σ 0 k) (σ (iterF σ 0 k)) (hs _ hcur_lt)]
    have hstep : σ (iterF σ 0 k) = iterF σ 0 (k + 1) := rfl
    rw [hstep]
    by_cases hk1 : k + 1 = n
    · have hnxt0 : iterF σ 0 (k + 1) = 0 := by
        rw [hk1]
        exact hret
      rw [hnxt0, if_pos rfl, show n - 1 - k = 0 by omega]
      simp [List.range']
    · have hpos1 := (hmid (k + 1) (by omega) (by omega)).1
      rw [if_neg (by omega)]
      rw [ih (k + 1) (by omega) (by omega)]
      rw [show n - 1 - k = (n - 1 - (k + 1)) + 1 by omega, List.range'_succ, List.map_cons]
      rfl

theorem solveDepotRoute_perm (renv : RouteEnv) (area : MultiPolygon) (depot : GeoPoint)
    (assigned : List ScanPosition) (route : List GeoPoint)
    (hsolve : ∀ inst, (renv.solve inst).status = SolverStatus.optimal →
      TSPFeasible inst (renv.solve inst))
    (h : solveDepotRoute renv area depot assigned = .ok route) :
    ∃ mid, route = depot :: mid ++ [depot] ∧
      mid.Perm (assigned.map (fun s => s.location)) := by
  simp only [solveDepotRoute] at h
  by_cases hlen : (tspPoints depot assigned).length = 1
  · rw [if_pos hlen] at h
    injection h with h'
    have hempty : assigned = [] := by
      unfold tspPoints at hlen
      simp only [List.length_cons, List.length_map, Nat.add_left_eq_self] at hlen
      exact List.eq_nil_of_length_eq_zero hlen
    subst hempty
    exact ⟨[], h'.symm, by simp⟩
  · rw [if_neg hlen] at h
    by_cases hstat :
        (renv.solve (depotInstance renv area depot assigned)).status = SolverStatus.optimal
    · rw [if_pos hstat] at h
      have hfeas := hsolve _ hstat
      set inst := depotInstance renv area depot assigned with hinst
      have hinstn : inst.n = (tspPoints depot assigned).length := rfl
      have hwf : ∀ a ∈ inst.arcs, a.1 < inst.n ∧ a.2 < inst.n ∧ a.1 ≠ a.2 := by
        intro a ha
        exact tspArcs_mem_spec renv area (tspPoints depot assigned) a ha
      have hlen1 : (tspPoints depot assigned).length = assigned.length + 1 := by
        simp [tspPoints]
      have hane : assigned ≠ [] := by
        intro he
        apply hlen
        rw [hlen1, he]
        rfl
      have hn2 : 2 ≤ inst.n := by
        rw [hinstn, hlen1]
        have hz : assigned.length ≠ 0 := fun h0 => hane (List.eq_nil_of_length_eq_zero h0)
        omega
      set σ := fun i => (succOf inst.arcs (renv.solve inst).x i).getD 0 with hσ
      have hspec := feasible_sigma inst (renv.solve inst) hfeas
      have hcyc : CycleHyp inst.n σ (renv.solve inst).u := by
        constructor
        · exact hn2
        · intro i hi
          exact (hwf _ (hspec i hi).2.1).2.1
        · intro i j hi hj hij
          exact feasible_sigma_inj inst (renv.solve inst) hfeas hwf i j hi hj hij
        · have hz := (hwf _ (hspec 0 (by omega)).2.1).2.2
          intro h0
          exact hz h0.symm
        · intro i h1 h2 hs1
          obtain ⟨_, hmem, hx1⟩ := hspec i h2
          have hσlt : σ i < inst.n := (hwf _ hmem).2.1
          have hne' : i ≠ σ i := (hwf _ hmem).2.2
          have hmtz := hfeas.2.2.2.2.2 i (σ i) h1 h2 hs1 hσlt hne' hmem
          rw [hx1] at hmtz
          linarith
        · intro i h1 h2
          exact (hfeas.2.2.2.2.1 i h1 h2).1
        · intro i h1 h2
          exact (hfeas.2.2.2.2.1 i h1 h2).2.1
      obtain ⟨hret, hmid, hinj', hsurj⟩ := cycle_reaches_all inst.n σ (renv.solve inst).u hcyc
      have hwalk := tourWalk_cycle_eq (tspPoints depot assigned) depot
        (succOf inst.arcs (renv.solve inst).x) σ inst.n
        (fun i hi => (hspec i hi).1) hret hmid (by omega)
        (tspPoints depot assigned).length 0 (by omega) (by omega)
      have hwalk0 : tourWalk (tspPoints depot assigned) depot
          (succOf inst.arcs (renv.solve inst).x) (tspPoints depot assigned).length 0 =
          .ok ((List.range' 1 (inst.n - 1)).map
            (fun j => (tspPoints depot assigned).getD (iterF σ 0 j) depot) ++ [depot]) :=
        hwalk
      rw [hwalk0] at h
      have h2 : (Except.ok (depot :: ((List.range' 1 (inst.n - 1)).map
          (fun j => (tspPoints depot assigned).getD (iterF σ 0 j) depot) ++ [depot])) :
          Except RouteFailure (List GeoPoint)) = .ok route := h
      injection h2 with h3
      refine ⟨(List.range' 1 (inst.n - 1)).map
        (fun j => (tspPoints depot assigned).getD (iterF σ 0 j) depot), h3.symm, ?_⟩
      have hperm1 := cycle_interior_perm inst.n σ hmid hinj' hsurj
      have hsplit : (List.range' 1 (inst.n - 1)).map
          (fun j => (tspPoints depot assigned).getD (iterF σ 0 j) depot) =
          ((List.range' 1 (inst.n - 1)).map (iterF σ 0)).map
            (fun j => (tspPoints depot assigned).getD j depot) := by
        rw [List.map_map]
        rfl
      rw [hsplit]
      have hperm2 := hperm1.map (fun j => (tspPoints depot assigned).getD j depot)
      have hfinal : (List.range' 1 (inst.n - 1)).map
          (fun j => (tspPoints depot assigned).getD j depot) =
          assigned.map (fun s => s.location) := by
        have hchange : inst.n - 1 = (assigned.map (fun s => s.location)).length := by
          rw [List.length_map]
          omega
        rw [hchange]
        show (List.range' 1 (assigned.map (fun s => s.location)).length).map
          (fun j => (depot :: assigned.map (fun s => s.location)).getD j depot) =
          assigned.map (fun s => s.location)
        exact range'_map_getD depot (assigned.map (fun s => s.location))
      rw [hfinal] at hperm2
      exact hperm2
    · rw [if_neg hstat] at h
      simp at h

/-- Claim C1: whenever `plan_sensor_routes` returns routes, the routes
correspond to the depots in order, each route starts and ends at its depot,
and its interior visits the scan points of that depot's nearest-depot
cluster exactly once — a permutation of the cluster, with no duplicates and
no omissions.  The solver-contract hypothesis states that when the external
pulp/CBC solver reports `optimal`, the returned variable assignment
satisfies the stated model constraints. -/
theorem plan_sensor_routes_visits (renv : RouteEnv) (sps : List ScanPosition)
    (depots : List GeoPoint) (area : MultiPolygon) (routes : List (List GeoPoint))
    (hsolve : ∀ inst, (renv.solve inst).status = SolverStatus.optimal →
      TSPFeasible inst (renv.solve inst))
    (h : plan_sensor_routes renv sps depots area = .ok routes) :
    routes.length = depots.length ∧
    ∀ i, i < depots.length → ∃ mid,
      routes.getD i [] = depots.getD i (0, 0) :: mid ++ [depots.getD i (0, 0)] ∧
      mid.Perm (((clustersOf renv.trig sps depots).getD i []).map (fun s => s.location)) := by
  unfold plan_sensor_routes at h
  split at h
  · simp at h
  · obtain ⟨hlen, hcomp⟩ := planRoutesAux_ok renv area _ routes h
    have hzlen : (depots.zip (clustersOf renv.trig sps depots)).length = depots.length := by
      rw [List.length_zip, clustersOf_length]
      exact min_self _
    refine ⟨by rw [hlen, hzlen], ?_⟩
    intro i hi
    have hc := hcomp i (by rw [hzlen]; exact hi)
    rw [zip_cluster_getD renv sps depots i hi] at hc
    exact solveDepotRoute_perm renv area _ _ _ hsolve hc

theorem plan_sensor_routes_visits_witness :
    (∀ inst, (stubRouteEnv.solve inst).status = SolverStatus.optimal →
      TSPFeasible inst (stubRouteEnv.solve inst)) ∧
    plan_sensor_routes stubRouteEnv [] [((0 : ℚ), (0 : ℚ))] [] =
      .ok [[((0 : ℚ), (0 : ℚ)), ((0 : ℚ), (0 : ℚ))]] ∧
    ([[((0 : ℚ), (0 : ℚ)), ((0 : ℚ), (0 : ℚ))]].length = [((0 : ℚ), (0 : ℚ))].length ∧
    ∀ i, i < [((0 : ℚ), (0 : ℚ))].length → ∃ mid,
      [[((0 : ℚ), (0 : ℚ)), ((0 : ℚ), (0 : ℚ))]].getD i [] =
        [((0 : ℚ), (0 : ℚ))].getD i (0, 0) :: mid ++ [[((0 : ℚ), (0 : ℚ))].getD i (0, 0)] ∧
      mid.Perm (((clustersOf stubRouteEnv.trig [] [((0 : ℚ), (0 : ℚ))]).getD i []).map
        (fun s => s.location))) :=
  by
  refine ⟨?_, rfl, ?_⟩
  · intro inst hst
    simp [stubRouteEnv] at hst
  · exact plan_sensor_routes_visits stubRouteEnv [] [(0, 0)] [] [[(0, 0), (0, 0)]]
      (by intro inst hst; simp [stubRouteEnv] at hst) rfl

end GeoOpt
